import Mathlib

/-!
Shallow embedding of `pkg/infrastructure/converter/batch_reader.go` (package
`converter` of the porter repository) and proofs about the BatchReader:
the row-to-columnar conversion loop (`Next`), the append paths
(`appendValue`, `appendTimeValue`, `appendDynamicValue`), the scan
destinations (`createScanDest`), and the reference-counted record/slice
lifecycle (`Record`, `Release`, `cleanup`).

Go machine integers are modelled as `Int`/`Nat`; the one explicit narrowing
conversion that appears in the source (`int32(...)` on the Date32 path and
the `arrow.Time32` conversion) is modelled with an explicit wrap `wrap32`.
Go `float64` payloads are carried as `Rat`; no verified claim depends on
floating-point arithmetic, only on values being moved or dropped.
Go panics (failed type assertions, index out of range) are modelled as an
explicit `goPanic` outcome, distinct from returned errors.
-/

namespace Porter

/-- Error codes of the repository's `errors` package (the ones reachable
from `batch_reader.go`). -/
inductive ErrCode where
  | internal
  | queryFailed
  | other
deriving DecidableEq

/-- Go error values as built by `errors.New` / `errors.Wrap` /
`errors.Wrapf` in the source: a code, a message, and an optional cause. -/
inductive GoError where
  | new (code : ErrCode) (msg : String)
  | wrap (code : ErrCode) (msg : String) (cause : GoError)
deriving DecidableEq

/-- Model of a Go `time.Time` value as consumed by `appendTimeValue`:
`unixSec` is `t.Unix()`, `nanosecond` is `t.Nanosecond()` (always in
`[0, 1e9)` for a real `time.Time`), and `hour`/`minute`/`second` are the
wall-clock components `t.Hour()`, `t.Minute()`, `t.Second()` in `t`'s
location. -/
structure GoTime where
  unixSec : Int
  nanosecond : Nat
  hour : Nat
  minute : Nat
  second : Nat
deriving DecidableEq

/-- Source `t.Unix()`. -/
def GoTime.unix (t : GoTime) : Int := t.unixSec

/-- Source `t.UnixMilli()`: Go computes `t.unixSec()*1e3 + int64(t.nsec())/1e6`,
with `nsec` always non-negative. -/
def GoTime.unixMilli (t : GoTime) : Int :=
  t.unixSec * 1000 + (t.nanosecond / 1000000 : Nat)

/-- Source `t.UnixMicro()`: Go computes `t.unixSec()*1e6 + int64(t.nsec())/1e3`. -/
def GoTime.unixMicro (t : GoTime) : Int :=
  t.unixSec * 1000000 + (t.nanosecond / 1000 : Nat)

/-- Go's conversion of an integer to `int32` (two's-complement wrap),
as performed by `int32(t.Unix() / 86400)` and `arrow.Time32(seconds)`. -/
def wrap32 (x : Int) : Int :=
  (x + 2 ^ 31) % 2 ^ 32 - 2 ^ 31

/-- The Arrow logical type ids that `createScanDest` switches on
(`field.Type.ID()`); `other` stands for any id not named in the switch. -/
inductive ArrowTypeId where
  | bool
  | int8 | uint8 | int16 | uint16 | int32 | uint32 | int64 | uint64
  | float32 | float64
  | string | binary
  | date32 | date64 | time32 | time64 | timestamp
  | decimal128 | decimal256
  | other
deriving DecidableEq

/-- An `arrow.Field`: name, logical type, nullability. -/
structure Field where
  name : String
  ty : ArrowTypeId
  nullable : Bool
deriving DecidableEq

/-- The concrete `array.<T>Builder` class of a field builder, i.e. the
dynamic type that the source's type assertions and type switches test. -/
inductive BuilderTy where
  | boolean
  | int8 | uint8 | int16 | uint16 | int32 | uint32 | int64 | uint64
  | float32 | float64
  | string | binary
  | date32 | date64 | time32 | time64 | timestamp
  | decimal128 | decimal256
  | ext
deriving DecidableEq

/-- The builder class `array.NewRecordBuilder` creates for a field of the
given logical type. -/
def builderTyOf : ArrowTypeId → BuilderTy
  | .bool => .boolean
  | .int8 => .int8
  | .uint8 => .uint8
  | .int16 => .int16
  | .uint16 => .uint16
  | .int32 => .int32
  | .uint32 => .uint32
  | .int64 => .int64
  | .uint64 => .uint64
  | .float32 => .float32
  | .float64 => .float64
  | .string => .string
  | .binary => .binary
  | .date32 => .date32
  | .date64 => .date64
  | .time32 => .time32
  | .time64 => .time64
  | .timestamp => .timestamp
  | .decimal128 => .decimal128
  | .decimal256 => .decimal256
  | .other => .ext

/-- A value stored in a builder entry (one non-null cell of a column). -/
inductive AVal where
  | bool (v : Bool)
  | int8 (v : Int) | int16 (v : Int) | int32 (v : Int) | int64 (v : Int)
  | uint8 (v : Nat) | uint16 (v : Nat) | uint32 (v : Nat) | uint64 (v : Nat)
  | float32 (v : Rat) | float64 (v : Rat)
  | str (v : String) | bin (v : List Nat)
  | date32 (v : Int) | date64 (v : Int)
  | time32 (v : Int) | time64 (v : Int) | timestamp (v : Int)
deriving DecidableEq

/-- One column builder: its dynamic class and the cells appended so far
(`none` = a null appended via `AppendNull`). -/
structure FieldBuilder where
  ty : BuilderTy
  entries : List (Option AVal)
deriving DecidableEq

/-- The set of column builders of an `array.RecordBuilder`, in schema
order. -/
abbrev Builder := List FieldBuilder

/-- Source `array.NewRecordBuilder(allocator, schema)`: one empty builder per
schema field. -/
def newBuilder (schema : List Field) : Builder :=
  schema.map fun f => ⟨builderTyOf f.ty, []⟩

/-- Outcome of a Go call: normal return, returned error, or runtime panic
(failed type assertion / index out of range). -/
inductive Res (α : Type) where
  | ok (a : α)
  | err (e : GoError)
  | goPanic (msg : String)
deriving DecidableEq

/-- Source `fb.AppendNull()`. -/
def appendNull (fb : FieldBuilder) : FieldBuilder :=
  { fb with entries := fb.entries ++ [none] }

/-- Source `fb.Append(v)` after a successful assertion to the concrete builder
class: appends the value. -/
def pushVal (fb : FieldBuilder) (v : AVal) : FieldBuilder :=
  { fb with entries := fb.entries ++ [some v] }

/-- A Go single-type assertion `fb.(*array.<expected>Builder)` followed by
`Append(v)`: panics when the builder's dynamic class differs. -/
def assertAppend (expected : BuilderTy) (v : AVal) (fb : FieldBuilder) :
    Res FieldBuilder :=
  if fb.ty = expected then .ok (pushVal fb v)
  else .goPanic "interface conversion: array.Builder has unexpected dynamic type"

/-- Source `appendTimeValue(fb, t)`: a type switch over the
builder's class converting the wall-clock instant to the column's unit;
unknown builder classes return an Internal error. -/
def appendTimeValue (fb : FieldBuilder) (t : GoTime) : Res FieldBuilder :=
  match fb.ty with
  | .date32 =>
      -- days := int32(t.Unix() / 86400)  (Go division truncates toward zero)
      .ok (pushVal fb (.date32 (wrap32 (Int.tdiv t.unix 86400))))
  | .date64 =>
      .ok (pushVal fb (.date64 t.unixMilli))
  | .time32 =>
      -- seconds := t.Hour()*3600 + t.Minute()*60 + t.Second()
      .ok (pushVal fb (.time32 (wrap32 (t.hour * 3600 + t.minute * 60 + t.second))))
  | .time64 =>
      .ok (pushVal fb (.time64
        ((t.hour : Int) * 3600000000 + (t.minute : Int) * 60000000 +
          (t.second : Int) * 1000000 + ((t.nanosecond / 1000 : Nat) : Int))))
  | .timestamp =>
      .ok (pushVal fb (.timestamp t.unixMicro))
  | _ => .err (.new .internal "unexpected builder type for time value")

/-- Dynamic contents of a Go `interface{}` cell, as dispatched by
`appendDynamicValue` and `toString`. `goInt` is a Go `int`; `otherVal`
stands for any dynamic type not named in either switch. -/
inductive Dyn where
  | bool (b : Bool)
  | int64 (v : Int)
  | float64 (v : Rat)
  | str (s : String)
  | bytes (bs : List Nat)
  | time (t : GoTime)
  | goInt (v : Int)
  | otherVal (tyName : String)
deriving DecidableEq

/-- Go's decimal formatting of a float64 (`strconv.FormatFloat`) is not
modelled bit-exactly; no verified claim depends on it. -/
def formatFloatGo (x : Rat) : String := toString x

/-- Source `toString(v)`. -/
def toStringGo : Dyn → String
  | .str s => s
  | .bytes bs => String.mk (bs.map Char.ofNat)
  | .goInt v => toString v
  | .int64 v => toString v
  | .float64 x => formatFloatGo x
  | .bool b => if b then "true" else "false"
  | .time _ => ""
  | .otherVal _ => ""

/-- Source `appendDynamicValue(fb, value)`. The `bool`, `int64`,
`float64`, `string` and `[]byte` arms are unguarded single-type assertions
(they panic on a mismatched builder); the default arm asserts a
`StringBuilder` and appends `toString(v)`. -/
def appendDynamicValue (fb : FieldBuilder) (value : Option Dyn) :
    Res FieldBuilder :=
  match value with
  | none => .ok (appendNull fb)
  | some v =>
    match v with
    | .bool b => assertAppend .boolean (.bool b) fb
    | .int64 x => assertAppend .int64 (.int64 x) fb
    | .float64 x => assertAppend .float64 (.float64 x) fb
    | .str s => assertAppend .string (.str s) fb
    | .bytes bs => assertAppend .binary (.bin bs) fb
    | .time t => appendTimeValue fb t
    | .goInt x => assertAppend .string (.str (toStringGo (.goInt x))) fb
    | .otherVal n => assertAppend .string (.str (toStringGo (.otherVal n))) fb

/-- The dynamic Go type and contents of one scan-destination cell as seen
by `appendValue`'s type switch. Pointer cells carry `none` for a nil
pointer; `sql.NullX` cells carry the validity flag and the value. A
`*[]byte` destination whose outer pointer or inner slice is nil behaves
identically in the source (both append null), so both are `ptrBytes none`.
`ptrPtrUint16/32/64` are the `**uint16` / `**uint32` / `**uint64`
destinations produced by `new(*uintN)`; `otherCell` is any dynamic type
not named in the switch. -/
inductive ScanCell where
  | ptrBool (v : Option Bool)
  | nullBool (valid : Bool) (b : Bool)
  | ptrInt8 (v : Option Int)
  | ptrUint8 (v : Option Nat)
  | nullByte (valid : Bool) (b : Nat)
  | ptrInt16 (v : Option Int)
  | ptrUint16 (v : Option Nat)
  | nullInt16 (valid : Bool) (x : Int)
  | ptrInt32 (v : Option Int)
  | ptrUint32 (v : Option Nat)
  | nullInt32 (valid : Bool) (x : Int)
  | ptrInt64 (v : Option Int)
  | ptrUint64 (v : Option Nat)
  | nullInt64 (valid : Bool) (x : Int)
  | ptrFloat32 (v : Option Rat)
  | ptrFloat64 (v : Option Rat)
  | nullFloat64 (valid : Bool) (x : Rat)
  | ptrString (v : Option String)
  | nullString (valid : Bool) (s : String)
  | ptrBytes (v : Option (List Nat))
  | ptrTime (v : Option GoTime)
  | nullTime (valid : Bool) (t : GoTime)
  | ptrDynamic (v : Option Dyn)
  | ptrPtrUint16 (v : Option Nat)
  | ptrPtrUint32 (v : Option Nat)
  | ptrPtrUint64 (v : Option Nat)
  | otherCell (tyName : String)
deriving DecidableEq

/-- Source `reflect.TypeOf(value).String()` for the cell types that reach the
default arm of `appendValue`. -/
def scanTypeName : ScanCell → String
  | .ptrPtrUint16 _ => "**uint16"
  | .ptrPtrUint32 _ => "**uint32"
  | .ptrPtrUint64 _ => "**uint64"
  | .otherCell n => n
  | _ => ""

/-- Go's narrowing `float32(v.Float64)`; the precision loss is not
modelled (no verified claim depends on float values). -/
def float32Narrow (x : Rat) : Rat := x

/-- Source `(*BatchReader).appendValue(colIdx, value)` restricted to the one
field builder it touches (`r.builder.Field(colIdx)`): the source's type
switch over the destination's dynamic type. Single-type assertions
(`fb.(*array.XBuilder)`) panic on mismatch; the `sql.NullFloat64` arm is a
type *switch* whose default returns an Internal error; destinations of a
type not named in the switch return the Internal "unsupported scan type"
error. -/
def appendValue (fb : FieldBuilder) (value : ScanCell) : Res FieldBuilder :=
  match value with
  | .ptrBool none => .ok (appendNull fb)
  | .ptrBool (some v) => assertAppend .boolean (.bool v) fb
  | .nullBool valid b =>
      if !valid then .ok (appendNull fb) else assertAppend .boolean (.bool b) fb
  | .ptrInt8 none => .ok (appendNull fb)
  | .ptrInt8 (some v) => assertAppend .int8 (.int8 v) fb
  | .ptrUint8 none => .ok (appendNull fb)
  | .ptrUint8 (some v) => assertAppend .uint8 (.uint8 v) fb
  | .nullByte valid b =>
      if !valid then .ok (appendNull fb) else assertAppend .uint8 (.uint8 b) fb
  | .ptrInt16 none => .ok (appendNull fb)
  | .ptrInt16 (some v) => assertAppend .int16 (.int16 v) fb
  | .ptrUint16 none => .ok (appendNull fb)
  | .ptrUint16 (some v) => assertAppend .uint16 (.uint16 v) fb
  | .nullInt16 valid x =>
      if !valid then .ok (appendNull fb) else assertAppend .int16 (.int16 x) fb
  | .ptrInt32 none => .ok (appendNull fb)
  | .ptrInt32 (some v) => assertAppend .int32 (.int32 v) fb
  | .ptrUint32 none => .ok (appendNull fb)
  | .ptrUint32 (some v) => assertAppend .uint32 (.uint32 v) fb
  | .nullInt32 valid x =>
      if !valid then .ok (appendNull fb) else assertAppend .int32 (.int32 x) fb
  | .ptrInt64 none => .ok (appendNull fb)
  | .ptrInt64 (some v) => assertAppend .int64 (.int64 v) fb
  | .ptrUint64 none => .ok (appendNull fb)
  | .ptrUint64 (some v) => assertAppend .uint64 (.uint64 v) fb
  | .nullInt64 valid x =>
      if !valid then .ok (appendNull fb) else assertAppend .int64 (.int64 x) fb
  | .ptrFloat32 none => .ok (appendNull fb)
  | .ptrFloat32 (some v) => assertAppend .float32 (.float32 v) fb
  | .ptrFloat64 none => .ok (appendNull fb)
  | .ptrFloat64 (some v) => assertAppend .float64 (.float64 v) fb
  | .nullFloat64 valid x =>
      if !valid then .ok (appendNull fb)
      else
        match fb.ty with
        | .float64 => .ok (pushVal fb (.float64 x))
        | .float32 => .ok (pushVal fb (.float32 (float32Narrow x)))
        | _ => .err (.new .internal "unexpected builder type for float")
  | .ptrString none => .ok (appendNull fb)
  | .ptrString (some s) => assertAppend .string (.str s) fb
  | .nullString valid s =>
      if !valid then .ok (appendNull fb) else assertAppend .string (.str s) fb
  | .ptrBytes none => .ok (appendNull fb)
  | .ptrBytes (some bs) => assertAppend .binary (.bin bs) fb
  | .ptrTime none => .ok (appendNull fb)
  | .ptrTime (some t) => appendTimeValue fb t
  | .nullTime valid t =>
      if !valid then .ok (appendNull fb) else appendTimeValue fb t
  | .ptrDynamic none => .ok (appendNull fb)
  | .ptrDynamic (some d) => appendDynamicValue fb (some d)
  | .ptrPtrUint16 _ =>
      .err (.new .internal ("unsupported scan type: " ++ scanTypeName value))
  | .ptrPtrUint32 _ =>
      .err (.new .internal ("unsupported scan type: " ++ scanTypeName value))
  | .ptrPtrUint64 _ =>
      .err (.new .internal ("unsupported scan type: " ++ scanTypeName value))
  | .otherCell _ =>
      .err (.new .internal ("unsupported scan type: " ++ scanTypeName value))

/-- The Go dynamic type of each scan destination `createScanDest` can
return. -/
inductive DestTy where
  | ptrBool | nullBool
  | ptrInt8 | nullByte | ptrUint8
  | ptrInt16 | nullInt16 | ptrUint16 | ptrPtrUint16
  | ptrInt32 | nullInt32 | ptrUint32 | ptrPtrUint32
  | ptrInt64 | nullInt64 | ptrUint64 | ptrPtrUint64
  | ptrFloat32 | ptrFloat64 | nullFloat64
  | ptrString | nullString
  | ptrBytes
  | ptrTime | nullTime
  | ptrDynamic
deriving DecidableEq

/-- Source `createScanDest(field)`: the dynamic type of the
destination allocated for a field. -/
def createScanDest (f : Field) : DestTy :=
  match f.ty with
  | .bool => if f.nullable then .nullBool else .ptrBool
  | .int8 => if f.nullable then .nullByte else .ptrInt8
  | .uint8 => if f.nullable then .nullByte else .ptrUint8
  | .int16 => if f.nullable then .nullInt16 else .ptrInt16
  | .uint16 => if f.nullable then .ptrPtrUint16 else .ptrUint16
  | .int32 => if f.nullable then .nullInt32 else .ptrInt32
  | .uint32 => if f.nullable then .ptrPtrUint32 else .ptrUint32
  | .int64 => if f.nullable then .nullInt64 else .ptrInt64
  | .uint64 => if f.nullable then .ptrPtrUint64 else .ptrUint64
  | .float32 => if f.nullable then .nullFloat64 else .ptrFloat32
  | .float64 => if f.nullable then .nullFloat64 else .ptrFloat64
  | .string => if f.nullable then .nullString else .ptrString
  | .binary => .ptrBytes
  | .date32 => if f.nullable then .nullTime else .ptrTime
  | .date64 => if f.nullable then .nullTime else .ptrTime
  | .time32 => if f.nullable then .nullTime else .ptrTime
  | .time64 => if f.nullable then .nullTime else .ptrTime
  | .timestamp => if f.nullable then .nullTime else .ptrTime
  | .decimal128 => if f.nullable then .nullString else .ptrString
  | .decimal256 => if f.nullable then .nullString else .ptrString
  | .other => .ptrDynamic

/-! ### Derived per-cell image of the append paths

`convCell? ty c` computes, for a builder of class `ty` and a destination
cell `c`, `some e` when `appendValue` succeeds appending the entry `e`
(`none` inside `e` meaning a null), and `none` when `appendValue` returns
an error or panics. It is a derived restatement of `appendValue` used to
phrase theorems; the lemmas below prove it characterizes the source
function. -/

/-- Image of a successful single-type assertion followed by append. -/
def assertConv (expected ty : BuilderTy) (v : AVal) : Option (Option AVal) :=
  if ty = expected then some (some v) else none

/-- Image of `appendTimeValue` when it succeeds. -/
def timeConv? (ty : BuilderTy) (t : GoTime) : Option (Option AVal) :=
  match ty with
  | .date32 => some (some (.date32 (wrap32 (Int.tdiv t.unix 86400))))
  | .date64 => some (some (.date64 t.unixMilli))
  | .time32 => some (some (.time32 (wrap32 (t.hour * 3600 + t.minute * 60 + t.second))))
  | .time64 => some (some (.time64
      ((t.hour : Int) * 3600000000 + (t.minute : Int) * 60000000 +
        (t.second : Int) * 1000000 + ((t.nanosecond / 1000 : Nat) : Int))))
  | .timestamp => some (some (.timestamp t.unixMicro))
  | _ => none

/-- Image of `appendDynamicValue` on a non-nil value when it succeeds. -/
def dynConv? (ty : BuilderTy) (d : Dyn) : Option (Option AVal) :=
  match d with
  | .bool b => assertConv .boolean ty (.bool b)
  | .int64 x => assertConv .int64 ty (.int64 x)
  | .float64 x => assertConv .float64 ty (.float64 x)
  | .str s => assertConv .string ty (.str s)
  | .bytes bs => assertConv .binary ty (.bin bs)
  | .time t => timeConv? ty t
  | .goInt x => assertConv .string ty (.str (toStringGo (.goInt x)))
  | .otherVal n => assertConv .string ty (.str (toStringGo (.otherVal n)))

/-- Image of `appendValue` when it succeeds. -/
def convCell? (ty : BuilderTy) (c : ScanCell) : Option (Option AVal) :=
  match c with
  | .ptrBool none => some none
  | .ptrBool (some v) => assertConv .boolean ty (.bool v)
  | .nullBool valid b =>
      if !valid then some none else assertConv .boolean ty (.bool b)
  | .ptrInt8 none => some none
  | .ptrInt8 (some v) => assertConv .int8 ty (.int8 v)
  | .ptrUint8 none => some none
  | .ptrUint8 (some v) => assertConv .uint8 ty (.uint8 v)
  | .nullByte valid b =>
      if !valid then some none else assertConv .uint8 ty (.uint8 b)
  | .ptrInt16 none => some none
  | .ptrInt16 (some v) => assertConv .int16 ty (.int16 v)
  | .ptrUint16 none => some none
  | .ptrUint16 (some v) => assertConv .uint16 ty (.uint16 v)
  | .nullInt16 valid x =>
      if !valid then some none else assertConv .int16 ty (.int16 x)
  | .ptrInt32 none => some none
  | .ptrInt32 (some v) => assertConv .int32 ty (.int32 v)
  | .ptrUint32 none => some none
  | .ptrUint32 (some v) => assertConv .uint32 ty (.uint32 v)
  | .nullInt32 valid x =>
      if !valid then some none else assertConv .int32 ty (.int32 x)
  | .ptrInt64 none => some none
  | .ptrInt64 (some v) => assertConv .int64 ty (.int64 v)
  | .ptrUint64 none => some none
  | .ptrUint64 (some v) => assertConv .uint64 ty (.uint64 v)
  | .nullInt64 valid x =>
      if !valid then some none else assertConv .int64 ty (.int64 x)
  | .ptrFloat32 none => some none
  | .ptrFloat32 (some v) => assertConv .float32 ty (.float32 v)
  | .ptrFloat64 none => some none
  | .ptrFloat64 (some v) => assertConv .float64 ty (.float64 v)
  | .nullFloat64 valid x =>
      if !valid then some none
      else
        match ty with
        | .float64 => some (some (.float64 x))
        | .float32 => some (some (.float32 (float32Narrow x)))
        | _ => none
  | .ptrString none => some none
  | .ptrString (some s) => assertConv .string ty (.str s)
  | .nullString valid s =>
      if !valid then some none else assertConv .string ty (.str s)
  | .ptrBytes none => some none
  | .ptrBytes (some bs) => assertConv .binary ty (.bin bs)
  | .ptrTime none => some none
  | .ptrTime (some t) => timeConv? ty t
  | .nullTime valid t =>
      if !valid then some none else timeConv? ty t
  | .ptrDynamic none => some none
  | .ptrDynamic (some d) => dynConv? ty d
  | .ptrPtrUint16 _ => none
  | .ptrPtrUint32 _ => none
  | .ptrPtrUint64 _ => none
  | .otherCell _ => none

/-! ### Cursor, heap and reader state -/

/-- One interaction with the cursor: either a successful `rows.Next()` +
`rows.Scan(...)` leaving the given cell contents in the destinations, or a
successful `rows.Next()` whose `Scan` fails with the given error. -/
inductive RowFetch where
  | row (cells : List ScanCell)
  | scanErr (e : GoError)
deriving DecidableEq

/-- A `*sql.Rows` cursor: the remaining fetches, the trailing iteration
error (surfaced by `Err()` only after a `Next()` call has returned false,
which `done` records), as in `database/sql`. -/
structure Rows where
  fetches : List RowFetch
  final : Option GoError
  done : Bool
deriving DecidableEq

/-- Source `rows.Next()` paired with the subsequent `Scan`: pops the next fetch;
on exhaustion returns false (`none`) and marks the error surfaced. -/
def rowsNext (r : Rows) : Option RowFetch × Rows :=
  match r.fetches with
  | [] => (none, { r with done := true })
  | f :: rest => (some f, { r with fetches := rest })

/-- Source `rows.Err()`. -/
def rowsErr (r : Rows) : Option GoError :=
  if r.done then r.final else none

/-- Reference-counted buffer store: `next` is the first unallocated buffer
id, `rc` the per-buffer reference count (0 = freed/unallocated). -/
structure Heap where
  next : Nat
  rc : Nat → Nat

def Heap.empty : Heap := ⟨0, fun _ => 0⟩

/-- Retains one buffer. -/
def Heap.inc (h : Heap) (i : Nat) : Heap :=
  ⟨h.next, fun j => if j = i then h.rc j + 1 else h.rc j⟩

/-- Releases one buffer. -/
def Heap.dec (h : Heap) (i : Nat) : Heap :=
  ⟨h.next, fun j => if j = i then h.rc j - 1 else h.rc j⟩

/-- Allocate `k` fresh buffers, each with refcount 1. -/
def Heap.allocN (h : Heap) (k : Nat) : List Nat × Heap :=
  ((List.range k).map fun j => h.next + j,
   ⟨h.next + k, fun j => if h.next ≤ j ∧ j < h.next + k then 1 else h.rc j⟩)

/-- Retain every column buffer of a record (what `Record.NewSlice` does to
the shared column data). -/
def retainCols (h : Heap) (cols : List Nat) : Heap := cols.foldl Heap.inc h

/-- Release every column buffer of a record (`record.Release()`). -/
def releaseCols (h : Heap) (cols : List Nat) : Heap := cols.foldl Heap.dec h

/-- An `arrow.Record`: row count, the ids of its shared column buffers,
the column contents, and (model bookkeeping) the generation of the
builder set that produced it. -/
structure Rec where
  numRows : Nat
  cols : List Nat
  colVals : List (List (Option AVal))
  gen : Nat

/-- Row count of the record `builder.NewRecord()` produces: the length of
the first column (all columns have equal length after uniform appends). -/
def numRowsOf (b : Builder) : Nat :=
  match b with
  | [] => 0
  | fb :: _ => fb.entries.length

/-- The `BatchReader` state. `builderGen` counts builder-set allocations
(model bookkeeping identifying builder sets); `buildersReleased` counts
`builder.Release()` calls; `rowsClosed` records `rows.Close()`. -/
structure BR where
  schema : List Field
  rows : Rows
  rowsClosed : Bool
  record : Option Rec
  builder : Option Builder
  builderGen : Nat
  buildersReleased : Nat
  err : Option GoError
  batchSize : Nat
  refCount : Int
  heap : Heap

/-- Source `NewBatchReaderWithSchema(allocator, schema, rows, logger)`: builds
destinations from the schema, allocates a fresh builder set, refcount 1.
The allocator and logger have no observable effect in the model. -/
def NewBatchReaderWithSchema (schema : List Field) (rows : Rows) : BR :=
  { schema := schema, rows := rows, rowsClosed := false, record := none,
    builder := some (newBuilder schema), builderGen := 0,
    buildersReleased := 0, err := none, batchSize := 1024, refCount := 1,
    heap := Heap.empty }

/-- Source `SetBatchSize(size)`: only positive sizes take effect. -/
def SetBatchSize (r : BR) (size : Int) : BR :=
  if 0 < size then { r with batchSize := size.toNat } else r

/-- Source `Err()`. -/
def Err (r : BR) : Option GoError := r.err

/-- Source `Retain()`. -/
def Retain (r : BR) : BR := { r with refCount := r.refCount + 1 }

/-- Source `cleanup()`: closes the cursor, releases the builder set, and sets
`r.record` to nil *without releasing it* (the source deliberately does not
release the record here). -/
def cleanup (r : BR) : BR :=
  { r with rowsClosed := true,
           buildersReleased := r.buildersReleased + (if r.builder.isSome then 1 else 0),
           builder := none,
           record := none }

/-- Source `Release()`: decrements the refcount and cleans up at zero. -/
def Release (r : BR) : BR :=
  let rc := r.refCount - 1
  if rc = 0 then cleanup { r with refCount := rc } else { r with refCount := rc }

/-- Source `Record()`: returns `r.record.NewSlice(0, r.record.NumRows())`, a new
record over the same column buffers with every column retained; `none`
when there is no current record. -/
def Record (r : BR) : Option Rec × BR :=
  match r.record with
  | none => (none, r)
  | some rec0 => (some rec0, { r with heap := retainCols r.heap rec0.cols })

/-! ### The `Next` loop -/

/-- Result of the per-row append loop body
(`for colIdx, val := range r.rowDest`): success, a wrapped append error
(the builder prefix before the failing column is already mutated), or a
panic. -/
inductive RowAppend where
  | ok (bs : Builder)
  | fail (bs : Builder) (e : GoError)
  | crashed (msg : String)

/-- The inner column loop of `Next`: appends each destination cell to its
column builder; an `appendValue` error is wrapped as
`errors.Wrapf(err, CodeInternal, "failed to append value for column %d")`;
a missing builder for a destination index is a Go index-out-of-range
panic. -/
def appendRow : Nat → Builder → List ScanCell → RowAppend
  | _, bs, [] => .ok bs
  | _, [], _ :: _ => .crashed "index out of range"
  | colIdx, fb :: bs, c :: cs =>
    match appendValue fb c with
    | .ok fb2 =>
        match appendRow (colIdx + 1) bs cs with
        | .ok rest => .ok (fb2 :: rest)
        | .fail rest e => .fail (fb2 :: rest) e
        | .crashed m => .crashed m
    | .err e => .fail (fb :: bs)
        (.wrap .internal ("failed to append value for column " ++ toString colIdx) e)
    | .goPanic m => .crashed m

/-- How the row loop of `Next` exited: returned false from inside the loop
(with the error, if any, assigned to `r.err`), broke at end of cursor with
rows already read, completed `batchSize` iterations, or panicked. -/
inductive LoopExit where
  | retFalse (e : Option GoError)
  | broke
  | completed
  | crashed (msg : String)

/-- State after the row loop: exit disposition, builder set, cursor, and
`rowsProcessedInBatch`. -/
structure LoopRes where
  exit : LoopExit
  builder : Builder
  rows : Rows
  processed : Nat

/-- The row loop of `Next` (`for i := 0; i < r.batchSize; i++`), with
`n` the remaining iterations and `i` the iteration counter (equal to the
rows processed so far). A scan whose destination count differs from the
cursor's column count fails as in `database/sql`. -/
def loopGo : Nat → Nat → Nat → Builder → Rows → LoopRes
  | 0, i, _, bs, rows => ⟨.completed, bs, rows, i⟩
  | n + 1, i, destLen, bs, rows =>
    match rowsNext rows with
    | (none, rows2) =>
      if i = 0 then ⟨.retFalse (rowsErr rows2), bs, rows2, i⟩
      else ⟨.broke, bs, rows2, i⟩
    | (some (.scanErr e), rows2) =>
      ⟨.retFalse (some (.wrap .queryFailed "failed to scan row" e)), bs, rows2, i⟩
    | (some (.row cells), rows2) =>
      if cells.length = destLen then
        match appendRow 0 bs cells with
        | .ok bs2 => loopGo n (i + 1) destLen bs2 rows2
        | .fail bs2 e => ⟨.retFalse (some e), bs2, rows2, i⟩
        | .crashed m => ⟨.crashed m, bs, rows2, i⟩
      else
        ⟨.retFalse (some (.wrap .queryFailed "failed to scan row"
          (.new .other "sql: expected matching destination arguments"))), bs, rows2, i⟩

/-- The phase of `Next` before the loop: release the prior record and nil
its slot, release the builder set, allocate a fresh one bound to the
schema (a new generation). -/
def prepareNext (s : BR) : BR :=
  let s1 :=
    match s.record with
    | some rec0 => { s with heap := releaseCols s.heap rec0.cols, record := none }
    | none => s
  { s1 with
    buildersReleased := s1.buildersReleased + (if s1.builder.isSome then 1 else 0),
    builder := some (newBuilder s1.schema),
    builderGen := s1.builderGen + 1 }

/-- Outcome of a call to `Next`: normal boolean return with the new reader
state, or a Go panic. -/
inductive NextRes where
  | ret (b : Bool) (s : BR)
  | crashed (msg : String)

/-- The body of `Next` after the sticky-error check and the pre-loop
phase: the row loop, record finalization when at least one row was
processed, and the trailing `rows.Err()` check. `s2` is the prepared
state. -/
def nextCore (s2 : BR) : NextRes :=
  let out := loopGo s2.batchSize 0 s2.schema.length (s2.builder.getD []) s2.rows
  match out.exit with
  | .crashed m => .crashed m
  | .retFalse e =>
      .ret false { s2 with rows := out.rows, builder := some out.builder, err := e }
  | _ =>
    if 0 < out.processed then
      let alloc := s2.heap.allocN out.builder.length
      let rec0 : Rec :=
        { numRows := numRowsOf out.builder, cols := alloc.1,
          colVals := out.builder.map FieldBuilder.entries, gen := s2.builderGen }
      let s3 := { s2 with rows := out.rows, builder := some out.builder,
                          record := some rec0, heap := alloc.2 }
      match rowsErr s3.rows with
      | some e => .ret false { s3 with err := some e }
      | none => .ret true s3
    else
      .ret false { s2 with rows := out.rows, builder := some out.builder }

/-- Source `(*BatchReader).Next()`: sticky-error check, prior
record release, fresh builder set, then `nextCore`. -/
def Next (s : BR) : NextRes :=
  if s.err.isSome then .ret false s
  else nextCore (prepareNext s)

/-- Repeatedly call `Next`, collecting the emitted current batches until
`Next` returns false (`fuel` bounds the number of calls). -/
def collect : Nat → BR → List Rec × BR
  | 0, s => ([], s)
  | n + 1, s =>
    match Next s with
    | .ret true s2 =>
        match s2.record with
        | some rec0 =>
            let p := collect n s2
            (rec0 :: p.1, p.2)
        | none => ([], s2)
    | .ret false s2 => ([], s2)
    | .crashed _ => ([], s)

/-! ### Derived batch-level views used to state the theorems -/

/-- The builder classes of a schema's builder set. -/
def tysOf (flds : List Field) : List BuilderTy :=
  flds.map fun f => builderTyOf f.ty

/-- The entry a successful `appendValue` adds for one cell
(see `appendValue_of_conv`). -/
def pushCell (fb : FieldBuilder) (c : ScanCell) : FieldBuilder :=
  { fb with entries := fb.entries ++ [(convCell? fb.ty c).getD none] }

/-- Appending one scanned row across all column builders. -/
def pushRow (bs : Builder) (row : List ScanCell) : Builder :=
  List.zipWith pushCell bs row

/-- Appending a list of scanned rows in order. -/
def buildRun (bs : Builder) (rws : List (List ScanCell)) : Builder :=
  rws.foldl pushRow bs

/-- Predicate `rowOk tys row` holds when the row has one cell per builder and every
cell appends successfully on its builder class. -/
def rowOk (tys : List BuilderTy) (row : List ScanCell) : Bool :=
  match tys, row with
  | [], [] => true
  | ty :: tys2, c :: cs => (convCell? ty c).isSome && rowOk tys2 cs
  | _, _ => false

/-- The image of one cursor row in the emitted batch: each cell replaced
by the entry its append stores. -/
def convRow (tys : List BuilderTy) (row : List ScanCell) : List (Option AVal) :=
  List.zipWith (fun ty c => (convCell? ty c).getD none) tys row

/-- The rows stored in a builder set, read back row-major. -/
def rowsOfBuilder (bs : Builder) : List (List (Option AVal)) :=
  (List.range (numRowsOf bs)).map fun i => bs.map fun fb => fb.entries.getD i none

/-- The rows of an emitted record batch, read back row-major from its
column values. -/
def recRows (rec : Rec) : List (List (Option AVal)) :=
  (List.range rec.numRows).map fun i => rec.colVals.map fun col => col.getD i none

/-- All builders hold the same number of entries. -/
def uniformB (bs : Builder) (m : Nat) : Prop :=
  ∀ fb ∈ bs, fb.entries.length = m

/-! ### Spec-side temporal readings (refinement comparison for the
temporal-append claim). These follow the spec's words, to be compared
against `appendTimeValue`. -/

/-- Spec reading: "days since the Unix epoch" of an instant — the floor
of its Unix seconds over 86400. -/
def specDaysSinceEpoch (t : GoTime) : Int := Int.fdiv t.unixSec 86400

/-- Spec reading: milliseconds since the Unix epoch (floor). -/
def specMillisSinceEpoch (t : GoTime) : Int :=
  Int.fdiv (t.unixSec * 1000000000 + t.nanosecond) 1000000

/-- Spec reading: microseconds since the Unix epoch (floor). -/
def specMicrosSinceEpoch (t : GoTime) : Int :=
  Int.fdiv (t.unixSec * 1000000000 + t.nanosecond) 1000

/-- Spec reading: seconds since midnight of the wall-clock components. -/
def specSecondsSinceMidnight (t : GoTime) : Int :=
  (t.hour : Int) * 3600 + (t.minute : Int) * 60 + (t.second : Int)

/-- Spec reading: microseconds since midnight (floor). -/
def specMicrosSinceMidnight (t : GoTime) : Int :=
  Int.fdiv (specSecondsSinceMidnight t * 1000000000 + t.nanosecond) 1000

/-! ### Concrete inputs used by witnesses and counterexamples -/

/-- A nullable INT64 column. -/
def exField : Field := ⟨"id", .int64, true⟩

/-- Some `n` single-column rows holding 1..n. -/
def exRows (n : Nat) : List (List ScanCell) :=
  (List.range n).map fun k => [.nullInt64 true ((k : Int) + 1)]

/-- Reader over seven clean rows with batch size three. -/
def exReader7 : BR :=
  SetBatchSize (NewBatchReaderWithSchema [exField]
    ⟨(exRows 7).map .row, none, false⟩) 3

/-- Reader whose cursor yields one row and then surfaces a trailing
iteration error. -/
def exReaderTrailingErr : BR :=
  NewBatchReaderWithSchema [exField]
    ⟨[.row [.nullInt64 true 1]],
      some (.new .queryFailed "connection lost"), false⟩

/-- Reader over an INT64 column whose destination is a dynamic slot
holding a string (the spec's type-mismatch scenario). -/
def exReaderDynMismatch : BR :=
  NewBatchReaderWithSchema [⟨"a", .int64, false⟩]
    ⟨[.row [.ptrDynamic (some (.str "x"))]], none, false⟩

/-- Reader whose cursor is empty with a trailing error. -/
def exReaderEmptyErr : BR :=
  NewBatchReaderWithSchema [exField]
    ⟨[], some (.new .queryFailed "tail error"), false⟩

/-- Reader already in the error state (sticky-error scenario), with a
pending cursor row that must not be fetched. -/
def exReaderSticky : BR :=
  { NewBatchReaderWithSchema [exField] ⟨(exRows 2).map .row, none, false⟩ with
      err := some (.new .internal "earlier failure") }

/-- A one-row emitted record over buffer 0. -/
def exRec : Rec := ⟨1, [0], [[some (.int64 5)]], 1⟩

/-- Heap owning exactly buffer 0 with refcount 1. -/
def exHeap : Heap := ⟨1, fun j => if j = 0 then 1 else 0⟩

/-- Reader holding `exRec` as its current batch over an exhausted clean
cursor. -/
def exReaderWithRecord : BR :=
  { NewBatchReaderWithSchema [exField] ⟨[], none, false⟩ with
      record := some exRec, heap := exHeap, builderGen := 1 }

/-- The pre-epoch instant 1969-12-31T12:00:00Z. -/
def exPreEpoch : GoTime := ⟨-43200, 0, 12, 0, 0⟩

/-- The boolean a `Next` call returned (`none` when it panicked). -/
def NextRes.retBool : NextRes → Option Bool
  | .ret b _ => some b
  | .crashed _ => none

/-- The reader state after a `Next` call (`none` when it panicked). -/
def NextRes.state : NextRes → Option BR
  | .ret _ s => some s
  | .crashed _ => none

/-- The panic message of a `Next` call, if it panicked. -/
def NextRes.crashMsg : NextRes → Option String
  | .crashed m => some m
  | .ret _ _ => none

theorem assertConv_ok {expected ty : BuilderTy} {v : AVal} {e : Option AVal}
    (h : assertConv expected ty v = some e) : ty = expected ∧ e = some v := by
  unfold assertConv at h
  split at h
  · exact ⟨by assumption, (Option.some.inj h).symm⟩
  · exact Option.noConfusion h

theorem assertAppend_of_conv {expected : BuilderTy} {v : AVal} {e : Option AVal}
    (ty : BuilderTy) (es : List (Option AVal))
    (h : assertConv expected ty v = some e) :
    assertAppend expected v ⟨ty, es⟩ = .ok ⟨ty, es ++ [e]⟩ := by
  obtain ⟨h1, h2⟩ := assertConv_ok h
  subst h1; subst h2
  simp [assertAppend, pushVal]

theorem appendTimeValue_of_conv {t : GoTime} {e : Option AVal}
    (ty : BuilderTy) (es : List (Option AVal))
    (h : timeConv? ty t = some e) :
    appendTimeValue ⟨ty, es⟩ t = .ok ⟨ty, es ++ [e]⟩ := by
  cases ty <;> simp_all [timeConv?, appendTimeValue, pushVal]

theorem appendDynamicValue_of_conv {d : Dyn} {e : Option AVal}
    (ty : BuilderTy) (es : List (Option AVal))
    (h : dynConv? ty d = some e) :
    appendDynamicValue ⟨ty, es⟩ (some d) = .ok ⟨ty, es ++ [e]⟩ := by
  cases d <;>
    simp only [dynConv?, appendDynamicValue] at h ⊢ <;>
    first
      | exact assertAppend_of_conv ty es h
      | exact appendTimeValue_of_conv ty es h

theorem appendValue_of_conv {c : ScanCell} {e : Option AVal}
    (ty : BuilderTy) (es : List (Option AVal))
    (h : convCell? ty c = some e) :
    appendValue ⟨ty, es⟩ c = .ok ⟨ty, es ++ [e]⟩ := by
  cases c with
  | ptrBool v => cases v <;> simp_all [convCell?, appendValue, appendNull] <;>
      exact assertAppend_of_conv ty es h
  | nullBool valid b =>
      cases valid <;> simp_all [convCell?, appendValue, appendNull] <;>
        exact assertAppend_of_conv ty es h
  | ptrInt8 v => cases v <;> simp_all [convCell?, appendValue, appendNull] <;>
      exact assertAppend_of_conv ty es h
  | ptrUint8 v => cases v <;> simp_all [convCell?, appendValue, appendNull] <;>
      exact assertAppend_of_conv ty es h
  | nullByte valid b =>
      cases valid <;> simp_all [convCell?, appendValue, appendNull] <;>
        exact assertAppend_of_conv ty es h
  | ptrInt16 v => cases v <;> simp_all [convCell?, appendValue, appendNull] <;>
      exact assertAppend_of_conv ty es h
  | ptrUint16 v => cases v <;> simp_all [convCell?, appendValue, appendNull] <;>
      exact assertAppend_of_conv ty es h
  | nullInt16 valid x =>
      cases valid <;> simp_all [convCell?, appendValue, appendNull] <;>
        exact assertAppend_of_conv ty es h
  | ptrInt32 v => cases v <;> simp_all [convCell?, appendValue, appendNull] <;>
      exact assertAppend_of_conv ty es h
  | ptrUint32 v => cases v <;> simp_all [convCell?, appendValue, appendNull] <;>
      exact assertAppend_of_conv ty es h
  | nullInt32 valid x =>
      cases valid <;> simp_all [convCell?, appendValue, appendNull] <;>
        exact assertAppend_of_conv ty es h
  | ptrInt64 v => cases v <;> simp_all [convCell?, appendValue, appendNull] <;>
      exact assertAppend_of_conv ty es h
  | ptrUint64 v => cases v <;> simp_all [convCell?, appendValue, appendNull] <;>
      exact assertAppend_of_conv ty es h
  | nullInt64 valid x =>
      cases valid <;> simp_all [convCell?, appendValue, appendNull] <;>
        exact assertAppend_of_conv ty es h
  | ptrFloat32 v => cases v <;> simp_all [convCell?, appendValue, appendNull] <;>
      exact assertAppend_of_conv ty es h
  | ptrFloat64 v => cases v <;> simp_all [convCell?, appendValue, appendNull] <;>
      exact assertAppend_of_conv ty es h
  | nullFloat64 valid x =>
      cases valid <;> simp_all [convCell?, appendValue, appendNull] <;>
        cases ty <;> simp_all [pushVal]
  | ptrString v => cases v <;> simp_all [convCell?, appendValue, appendNull] <;>
      exact assertAppend_of_conv ty es h
  | nullString valid s =>
      cases valid <;> simp_all [convCell?, appendValue, appendNull] <;>
        exact assertAppend_of_conv ty es h
  | ptrBytes v => cases v <;> simp_all [convCell?, appendValue, appendNull] <;>
      exact assertAppend_of_conv ty es h
  | ptrTime v => cases v <;> simp_all [convCell?, appendValue, appendNull] <;>
      exact appendTimeValue_of_conv ty es h
  | nullTime valid t =>
      cases valid <;> simp_all [convCell?, appendValue, appendNull] <;>
        exact appendTimeValue_of_conv ty es h
  | ptrDynamic v => cases v <;> simp_all [convCell?, appendValue, appendNull] <;>
      exact appendDynamicValue_of_conv ty es h
  | ptrPtrUint16 v => simp [convCell?] at h
  | ptrPtrUint32 v => simp [convCell?] at h
  | ptrPtrUint64 v => simp [convCell?] at h
  | otherCell n => simp [convCell?] at h

theorem rowOk_length {tys : List BuilderTy} {row : List ScanCell}
    (h : rowOk tys row = true) : row.length = tys.length := by
  induction tys generalizing row with
  | nil => cases row with
    | nil => rfl
    | cons c cs => simp [rowOk] at h
  | cons ty tys2 ih => cases row with
    | nil => simp [rowOk] at h
    | cons c cs =>
        simp only [rowOk, Bool.and_eq_true] at h
        simp [ih h.2]

theorem appendRow_ok (i : Nat) (bs : Builder) (tys : List BuilderTy)
    (row : List ScanCell) (hty : bs.map FieldBuilder.ty = tys)
    (h : rowOk tys row = true) :
    appendRow i bs row = .ok (pushRow bs row) := by
  induction bs generalizing tys row i with
  | nil =>
      subst hty
      cases row with
      | nil => rfl
      | cons c cs => simp [rowOk] at h
  | cons fb bs2 ih =>
      subst hty
      cases row with
      | nil => simp [rowOk] at h
      | cons c cs =>
          simp only [List.map_cons, rowOk, Bool.and_eq_true] at h
          obtain ⟨e, he⟩ := Option.isSome_iff_exists.mp h.1
          have happ : appendValue fb c = .ok (pushCell fb c) := by
            have := appendValue_of_conv fb.ty fb.entries he
            simpa [pushCell, he] using this
          simp only [appendRow, happ, ih (i + 1) (bs2.map FieldBuilder.ty) cs rfl h.2,
            pushRow, List.zipWith_cons_cons]

theorem pushRow_map_ty (bs : Builder) (row : List ScanCell)
    (hl : bs.length ≤ row.length) :
    (pushRow bs row).map FieldBuilder.ty = bs.map FieldBuilder.ty := by
  induction bs generalizing row with
  | nil => simp [pushRow]
  | cons fb bs2 ih =>
      cases row with
      | nil => simp at hl
      | cons c cs =>
          simp only [List.length_cons, Nat.succ_le_succ_iff] at hl
          have h2 := ih cs hl
          simp only [pushRow] at h2
          simp only [pushRow, List.zipWith_cons_cons, List.map_cons, h2]
          rfl

theorem pushRow_length (bs : Builder) (row : List ScanCell)
    (hl : row.length = bs.length) :
    (pushRow bs row).length = bs.length := by
  simp [pushRow, hl]

theorem uniformB_newBuilder (flds : List Field) :
    uniformB (newBuilder flds) 0 := by
  intro fb hfb
  simp only [newBuilder, List.mem_map] at hfb
  obtain ⟨f, _, rfl⟩ := hfb
  rfl

theorem uniformB_pushRow {bs : Builder} {m : Nat} (hu : uniformB bs m)
    (row : List ScanCell) (hl : row.length = bs.length) :
    uniformB (pushRow bs row) (m + 1) := by
  induction bs generalizing row m with
  | nil => intro fb hfb; simp [pushRow] at hfb
  | cons fb0 bs2 ih =>
      cases row with
      | nil => simp at hl
      | cons c cs =>
          intro fb hfb
          simp only [pushRow, List.zipWith_cons_cons, List.mem_cons] at hfb
          rcases hfb with rfl | hfb
          · simp [pushCell, hu fb0 (List.mem_cons_self _ _)]
          · exact ih (fun g hg => hu g (List.mem_cons_of_mem _ hg))
              cs (by simpa using hl) fb hfb

theorem numRowsOf_newBuilder (flds : List Field) :
    numRowsOf (newBuilder flds) = 0 := by
  cases flds <;> rfl

theorem numRowsOf_uniform {bs : Builder} {m : Nat} (hu : uniformB bs m)
    (hne : bs ≠ []) : numRowsOf bs = m := by
  cases bs with
  | nil => exact absurd rfl hne
  | cons fb bs2 => exact hu fb (List.mem_cons_self _ _)

theorem zipWith_left_eq_map {α β γ : Type} (f : α → γ) :
    ∀ (l1 : List α) (l2 : List β), l1.length ≤ l2.length →
      List.zipWith (fun a _ => f a) l1 l2 = l1.map f
  | [], _, _ => by simp
  | a :: l1, [], h => by simp at h
  | a :: l1, b :: l2, h => by
      simp only [List.zipWith_cons_cons, List.map_cons]
      rw [zipWith_left_eq_map f l1 l2 (by simpa using h)]

theorem getD_append_lt {α : Type} (l : List α) (a d : α) (i : Nat)
    (h : i < l.length) : (l ++ [a]).getD i d = l.getD i d := by
  rw [List.getD_eq_getElem?_getD, List.getD_eq_getElem?_getD,
    List.getElem?_append_left h]

theorem getD_append_len {α : Type} (l : List α) (a d : α) :
    (l ++ [a]).getD l.length d = a := by
  rw [List.getD_eq_getElem?_getD, List.getElem?_append_right (Nat.le_refl _)]
  simp

theorem zipWith_push_getD_lt {bs : Builder} {m : Nat} (hu : uniformB bs m)
    (row : List ScanCell) (i : Nat) (hi : i < m) :
    List.zipWith (fun fb c => (pushCell fb c).entries.getD i none) bs row
      = List.zipWith (fun fb _ => fb.entries.getD i none) bs row := by
  induction bs generalizing row with
  | nil => simp
  | cons fb bs2 ih =>
      cases row with
      | nil => simp
      | cons c cs =>
          simp only [List.zipWith_cons_cons]
          rw [ih (fun g hg => hu g (List.mem_cons_of_mem _ hg)) cs]
          congr 1
          simp only [pushCell]
          exact getD_append_lt _ _ _ _ (by rw [hu fb (List.mem_cons_self _ _)]; exact hi)

theorem zipWith_push_getD_last {bs : Builder} {m : Nat} (hu : uniformB bs m)
    (row : List ScanCell) :
    List.zipWith (fun fb c => (pushCell fb c).entries.getD m none) bs row
      = List.zipWith (fun fb c => (convCell? fb.ty c).getD none) bs row := by
  induction bs generalizing row with
  | nil => simp
  | cons fb bs2 ih =>
      cases row with
      | nil => simp
      | cons c cs =>
          simp only [List.zipWith_cons_cons]
          rw [ih (fun g hg => hu g (List.mem_cons_of_mem _ hg)) cs]
          congr 1
          simp only [pushCell]
          rw [← hu fb (List.mem_cons_self _ _)]
          exact getD_append_len _ _ _

theorem rowsOfBuilder_pushRow {bs : Builder} {m : Nat} (hu : uniformB bs m)
    (hne : bs ≠ []) (row : List ScanCell) (hl : row.length = bs.length) :
    rowsOfBuilder (pushRow bs row) =
      rowsOfBuilder bs ++ [convRow (bs.map FieldBuilder.ty) row] := by
  have hnum : numRowsOf bs = m := numRowsOf_uniform hu hne
  have hne2 : pushRow bs row ≠ [] := by
    cases bs with
    | nil => exact absurd rfl hne
    | cons fb bs2 =>
        cases row with
        | nil => simp at hl
        | cons c cs => simp [pushRow]
  have hnum2 : numRowsOf (pushRow bs row) = m + 1 :=
    numRowsOf_uniform (uniformB_pushRow hu row hl) hne2
  unfold rowsOfBuilder
  rw [hnum, hnum2, List.range_succ, List.map_append]
  congr 1
  · apply List.map_congr_left
    intro i hi
    have hi2 : i < m := List.mem_range.mp hi
    show (pushRow bs row).map (fun fb => fb.entries.getD i none)
      = bs.map fun fb => fb.entries.getD i none
    rw [pushRow, List.map_zipWith, zipWith_push_getD_lt hu row i hi2]
    exact zipWith_left_eq_map _ bs row (le_of_eq hl.symm)
  · simp only [List.map_cons, List.map_nil]
    congr 1
    rw [pushRow, List.map_zipWith, zipWith_push_getD_last hu row, convRow,
      List.zipWith_map_left]

theorem buildRun_length (bs : Builder) (rws : List (List ScanCell))
    (hall : ∀ r ∈ rws, r.length = bs.length) :
    (buildRun bs rws).length = bs.length := by
  induction rws generalizing bs with
  | nil => rfl
  | cons r rs ih =>
      have h1 : r.length = bs.length := hall r (List.mem_cons_self _ _)
      have h2 := pushRow_length bs r h1
      show (buildRun (pushRow bs r) rs).length = bs.length
      rw [ih (pushRow bs r) (fun r2 hr2 => by
        rw [h2]; exact hall r2 (List.mem_cons_of_mem _ hr2)), h2]

theorem buildRun_map_ty (bs : Builder) (rws : List (List ScanCell))
    (hall : ∀ r ∈ rws, r.length = bs.length) :
    (buildRun bs rws).map FieldBuilder.ty = bs.map FieldBuilder.ty := by
  induction rws generalizing bs with
  | nil => rfl
  | cons r rs ih =>
      have h1 : r.length = bs.length := hall r (List.mem_cons_self _ _)
      have h2 := pushRow_length bs r h1
      have h3 := pushRow_map_ty bs r (le_of_eq h1.symm)
      show (buildRun (pushRow bs r) rs).map FieldBuilder.ty = bs.map FieldBuilder.ty
      rw [ih (pushRow bs r) (fun r2 hr2 => by
        rw [h2]; exact hall r2 (List.mem_cons_of_mem _ hr2)), h3]

theorem uniformB_buildRun {bs : Builder} {m : Nat} (hu : uniformB bs m)
    (rws : List (List ScanCell)) (hall : ∀ r ∈ rws, r.length = bs.length) :
    uniformB (buildRun bs rws) (m + rws.length) := by
  induction rws generalizing bs m with
  | nil => simpa using hu
  | cons r rs ih =>
      have h1 : r.length = bs.length := hall r (List.mem_cons_self _ _)
      have h2 := pushRow_length bs r h1
      have := ih (uniformB_pushRow hu r h1) (fun r2 hr2 => by
        rw [h2]; exact hall r2 (List.mem_cons_of_mem _ hr2))
      show uniformB (buildRun (pushRow bs r) rs) _
      have harith : m + (r :: rs).length = m + 1 + rs.length := by
        simp [Nat.add_comm, Nat.add_assoc, Nat.add_left_comm]
      rwa [harith]

theorem rowsOfBuilder_buildRun {bs : Builder} {m : Nat} (hu : uniformB bs m)
    (hne : bs ≠ []) (rws : List (List ScanCell))
    (hall : ∀ r ∈ rws, r.length = bs.length) :
    rowsOfBuilder (buildRun bs rws) =
      rowsOfBuilder bs ++ rws.map (convRow (bs.map FieldBuilder.ty)) := by
  induction rws generalizing bs m with
  | nil => simp [buildRun]
  | cons r rs ih =>
      have h1 : r.length = bs.length := hall r (List.mem_cons_self _ _)
      have h2 := pushRow_length bs r h1
      have hne2 : pushRow bs r ≠ [] := by
        intro hz
        rw [hz] at h2
        exact hne (List.length_eq_zero.mp h2.symm)
      have hty := pushRow_map_ty bs r (le_of_eq h1.symm)
      show rowsOfBuilder (buildRun (pushRow bs r) rs) = _
      rw [ih (uniformB_pushRow hu r h1) hne2 (fun r2 hr2 => by
        rw [h2]; exact hall r2 (List.mem_cons_of_mem _ hr2)), hty,
        rowsOfBuilder_pushRow hu hne r h1]
      simp [List.append_assoc]

theorem rowsOfBuilder_newBuilder (flds : List Field) :
    rowsOfBuilder (newBuilder flds) = [] := by
  simp [rowsOfBuilder, numRowsOf_newBuilder]

theorem newBuilder_map_ty (flds : List Field) :
    (newBuilder flds).map FieldBuilder.ty = tysOf flds := by
  simp [newBuilder, tysOf, List.map_map]

theorem newBuilder_length (flds : List Field) :
    (newBuilder flds).length = flds.length := by
  simp [newBuilder]

/-! ### Behaviour of the `Next` loop on clean cursors -/

theorem loopGo_clean_full {tys : List BuilderTy} :
    ∀ (n i : Nat) (bs : Builder) (rws : List (List ScanCell))
      (rest : List RowFetch) (fin : Option GoError) (d : Bool),
      bs.map FieldBuilder.ty = tys →
      (∀ r ∈ rws, rowOk tys r = true) →
      n ≤ rws.length →
      loopGo n i tys.length bs ⟨rws.map .row ++ rest, fin, d⟩ =
        ⟨.completed, buildRun bs (rws.take n),
          ⟨(rws.drop n).map .row ++ rest, fin, d⟩, i + n⟩ := by
  intro n
  induction n with
  | zero => intro i bs rws rest fin d hty hok hn; simp [loopGo, buildRun]
  | succ n ih =>
      intro i bs rws rest fin d hty hok hn
      cases rws with
      | nil => simp at hn
      | cons r rs =>
          have hokr : rowOk tys r = true := hok r (List.mem_cons_self _ _)
          have hlen : r.length = tys.length := rowOk_length hokr
          have happ : appendRow 0 bs r = .ok (pushRow bs r) :=
            appendRow_ok 0 bs tys r hty hokr
          have hty2 : (pushRow bs r).map FieldBuilder.ty = tys := by
            rw [pushRow_map_ty bs r (by
              rw [hlen, ← hty, List.length_map])]
            exact hty
          have hrec := ih (i + 1) (pushRow bs r) rs rest fin d hty2
            (fun r2 hr2 => hok r2 (List.mem_cons_of_mem _ hr2)) (by simpa using hn)
          simp only [List.map_cons, List.cons_append, loopGo, rowsNext, hlen,
            if_pos rfl, happ]
          rw [hrec]
          simp only [List.take_succ_cons, List.drop_succ_cons]
          have : i + 1 + n = i + (n + 1) := by omega
          rw [this]
          rfl

theorem loopGo_clean_drain {tys : List BuilderTy} :
    ∀ (rws : List (List ScanCell)) (n i : Nat) (bs : Builder)
      (fin : Option GoError) (d : Bool),
      bs.map FieldBuilder.ty = tys →
      (∀ r ∈ rws, rowOk tys r = true) →
      rws.length < n →
      0 < i + rws.length →
      loopGo n i tys.length bs ⟨rws.map .row, fin, d⟩ =
        ⟨.broke, buildRun bs rws, ⟨[], fin, true⟩, i + rws.length⟩ := by
  intro rws
  induction rws with
  | nil =>
      intro n i bs fin d hty hok hn hi
      cases n with
      | zero => simp at hn
      | succ n =>
          have hi2 : ¬ i = 0 := by simp only [List.length_nil] at hi; omega
          simp [loopGo, rowsNext, buildRun, hi2]
  | cons r rs ih =>
      intro n i bs fin d hty hok hn hi
      cases n with
      | zero => simp at hn
      | succ n =>
          have hokr : rowOk tys r = true := hok r (List.mem_cons_self _ _)
          have hlen : r.length = tys.length := rowOk_length hokr
          have happ : appendRow 0 bs r = .ok (pushRow bs r) :=
            appendRow_ok 0 bs tys r hty hokr
          have hty2 : (pushRow bs r).map FieldBuilder.ty = tys := by
            rw [pushRow_map_ty bs r (by
              rw [hlen, ← hty, List.length_map])]
            exact hty
          have hrec := ih n (i + 1) (pushRow bs r) fin d hty2
            (fun r2 hr2 => hok r2 (List.mem_cons_of_mem _ hr2))
            (by simpa using hn) (by omega)
          simp only [List.map_cons, loopGo, rowsNext, hlen, if_pos rfl, happ]
          rw [hrec]
          have : i + 1 + rs.length = i + (r :: rs).length := by simp; omega
          rw [this]
          rfl

theorem loopGo_empty (n : Nat) (h0 : 0 < n) (destLen : Nat) (bs : Builder)
    (rows : Rows) (hf : rows.fetches = []) :
    loopGo n 0 destLen bs rows =
      ⟨.retFalse rows.final, bs, { rows with done := true }, 0⟩ := by
  cases n with
  | zero => simp at h0
  | succ n => simp [loopGo, rowsNext, hf, rowsErr]

/-! ### Projections of `prepareNext` -/

@[simp] theorem prepareNext_schema (s : BR) :
    (prepareNext s).schema = s.schema := by
  cases h : s.record <;> simp [prepareNext, h]

@[simp] theorem prepareNext_rows (s : BR) :
    (prepareNext s).rows = s.rows := by
  cases h : s.record <;> simp [prepareNext, h]

@[simp] theorem prepareNext_err (s : BR) :
    (prepareNext s).err = s.err := by
  cases h : s.record <;> simp [prepareNext, h]

@[simp] theorem prepareNext_batchSize (s : BR) :
    (prepareNext s).batchSize = s.batchSize := by
  cases h : s.record <;> simp [prepareNext, h]

@[simp] theorem prepareNext_record (s : BR) :
    (prepareNext s).record = none := by
  cases h : s.record <;> simp [prepareNext, h]

@[simp] theorem prepareNext_builder (s : BR) :
    (prepareNext s).builder = some (newBuilder s.schema) := by
  cases h : s.record <;> simp [prepareNext, h]

@[simp] theorem prepareNext_builderGen (s : BR) :
    (prepareNext s).builderGen = s.builderGen + 1 := by
  cases h : s.record <;> simp [prepareNext, h]

@[simp] theorem prepareNext_refCount (s : BR) :
    (prepareNext s).refCount = s.refCount := by
  cases h : s.record <;> simp [prepareNext, h]

theorem prepareNext_heap_none (s : BR) (h : s.record = none) :
    (prepareNext s).heap = s.heap := by
  simp [prepareNext, h]

theorem prepareNext_heap_some (s : BR) {rec0 : Rec} (h : s.record = some rec0) :
    (prepareNext s).heap = releaseCols s.heap rec0.cols := by
  simp [prepareNext, h]

theorem prepareNext_buildersReleased_some (s : BR) (h : s.builder.isSome) :
    (prepareNext s).buildersReleased = s.buildersReleased + 1 := by
  cases hr : s.record <;> simp [prepareNext, hr, h]

/-! ### `Next` on an exhausted cursor and on a clean cursor -/

theorem Next_empty_fetches (s : BR) (herr : s.err = none)
    (hB : 0 < s.batchSize) (hf : s.rows.fetches = []) :
    Next s = .ret false { prepareNext s with
      rows := { s.rows with done := true },
      builder := some (newBuilder s.schema),
      err := s.rows.final } := by
  have hloop := loopGo_empty s.batchSize hB s.schema.length
    (newBuilder s.schema) s.rows hf
  simp only [Next, herr, Option.isSome_none, Bool.false_eq_true, if_false,
    nextCore, prepareNext_batchSize, prepareNext_schema, prepareNext_builder,
    prepareNext_rows, Option.getD_some, hloop]

theorem Next_clean_cons (s : BR) (flds : List Field)
    (rws : List (List ScanCell)) (d : Bool)
    (hsch : s.schema = flds) (herr : s.err = none)
    (hrows : s.rows = ⟨rws.map .row, none, d⟩)
    (hB : 0 < s.batchSize) (hne : rws ≠ []) (hflds : flds ≠ [])
    (hok : ∀ r ∈ rws, rowOk (tysOf flds) r = true) :
    ∃ d2,
      Next s = .ret true
        { prepareNext s with
            rows := ⟨(rws.drop (min s.batchSize rws.length)).map .row, none, d2⟩,
            builder := some (buildRun (newBuilder flds)
              (rws.take (min s.batchSize rws.length))),
            record := some ⟨min s.batchSize rws.length,
              ((prepareNext s).heap.allocN flds.length).1,
              (buildRun (newBuilder flds)
                (rws.take (min s.batchSize rws.length))).map FieldBuilder.entries,
              s.builderGen + 1⟩,
            heap := ((prepareNext s).heap.allocN flds.length).2 } := by
  have hlenflds : (tysOf flds) = (newBuilder flds).map FieldBuilder.ty :=
    (newBuilder_map_ty flds).symm
  have htysLen : (tysOf flds).length = flds.length := by simp [tysOf]
  have hrowslen : ∀ r ∈ rws, r.length = (newBuilder flds).length := by
    intro r hr
    rw [newBuilder_length, ← htysLen]
    exact rowOk_length (hok r hr)
  have hflen : flds.length ≠ 0 := fun hz => hflds (List.length_eq_zero.mp hz)
  rcases Nat.lt_or_ge rws.length s.batchSize with hcmp | hcmp
  · -- the cursor drains inside the loop: `broke`
    have hN : 0 < rws.length := List.length_pos.mpr hne
    have hmin : min s.batchSize rws.length = rws.length :=
      Nat.min_eq_right (Nat.le_of_lt hcmp)
    have hloop := loopGo_clean_drain rws s.batchSize 0
      (newBuilder flds) none d hlenflds.symm hok hcmp (by omega)
    rw [htysLen] at hloop
    have hulen : (rws.take rws.length).length = rws.length := by simp
    have hu : uniformB (buildRun (newBuilder flds) rws) rws.length := by
      have := uniformB_buildRun (uniformB_newBuilder flds) rws hrowslen
      simpa using this
    have hblen : (buildRun (newBuilder flds) rws).length = flds.length := by
      rw [buildRun_length _ _ hrowslen, newBuilder_length]
    have hbne : buildRun (newBuilder flds) rws ≠ [] := by
      intro hz; rw [hz] at hblen; exact hflen hblen.symm
    have hnum : numRowsOf (buildRun (newBuilder flds) rws) = rws.length :=
      numRowsOf_uniform hu hbne
    refine ⟨true, ?_⟩
    simp only [Next, herr, Option.isSome_none, Bool.false_eq_true, if_false,
      nextCore, prepareNext_batchSize, prepareNext_schema, prepareNext_builder,
      prepareNext_rows, prepareNext_builderGen, Option.getD_some, hsch, hrows,
      hloop, hnum, hblen, hmin, Nat.zero_add]
    have hre : rowsErr ⟨[], none, true⟩ = none := by simp [rowsErr]
    rw [List.take_of_length_le (Nat.le_refl _), List.drop_of_length_le (Nat.le_refl _)]
    simp [hre, hN]
  · -- a full batch is read: `completed`
    have hmin : min s.batchSize rws.length = s.batchSize := Nat.min_eq_left hcmp
    have hloop := loopGo_clean_full s.batchSize 0
      (newBuilder flds) rws [] none d hlenflds.symm hok hcmp
    rw [htysLen, List.append_nil] at hloop
    have htk : ∀ r ∈ rws.take s.batchSize, r.length = (newBuilder flds).length :=
      fun r hr => hrowslen r (List.mem_of_mem_take hr)
    have hoktk : ∀ r ∈ rws.take s.batchSize, rowOk (tysOf flds) r = true :=
      fun r hr => hok r (List.mem_of_mem_take hr)
    have hulen : (rws.take s.batchSize).length = s.batchSize := by
      simp [Nat.min_eq_left hcmp]
    have hu : uniformB (buildRun (newBuilder flds) (rws.take s.batchSize))
        s.batchSize := by
      have := uniformB_buildRun (uniformB_newBuilder flds) (rws.take s.batchSize) htk
      rw [hulen] at this
      simpa using this
    have hblen : (buildRun (newBuilder flds) (rws.take s.batchSize)).length
        = flds.length := by
      rw [buildRun_length _ _ htk, newBuilder_length]
    have hbne : buildRun (newBuilder flds) (rws.take s.batchSize) ≠ [] := by
      intro hz; rw [hz] at hblen; exact hflen hblen.symm
    have hnum : numRowsOf (buildRun (newBuilder flds) (rws.take s.batchSize))
        = s.batchSize := numRowsOf_uniform hu hbne
    refine ⟨d, ?_⟩
    simp only [Next, herr, Option.isSome_none, Bool.false_eq_true, if_false,
      nextCore, prepareNext_batchSize, prepareNext_schema, prepareNext_builder,
      prepareNext_rows, prepareNext_builderGen, Option.getD_some, hsch, hrows,
      hloop, hnum, hblen, hmin]
    simp only [Nat.zero_add, if_pos hB, List.append_nil]
    have hre : rowsErr ⟨(rws.drop s.batchSize).map RowFetch.row, none, d⟩ = none := by
      simp [rowsErr]
    simp only [hre]

theorem recRows_ofBuilder (bs : Builder) (cols : List Nat) (g : Nat) :
    recRows ⟨numRowsOf bs, cols, bs.map FieldBuilder.entries, g⟩
      = rowsOfBuilder bs := by
  unfold recRows rowsOfBuilder
  simp only [List.map_map]
  rfl

theorem sizes_cons (B N : Nat) (hB : 0 < B) (hN : 0 < N) :
    List.replicate (N / B) B ++ (if N % B = 0 then [] else [N % B]) =
      min B N :: (List.replicate ((N - min B N) / B) B ++
        (if (N - min B N) % B = 0 then [] else [(N - min B N) % B])) := by
  rcases le_or_lt B N with hle | hlt
  · have hmin : min B N = B := Nat.min_eq_left hle
    have hM : N = (N - B) + B := by omega
    rw [hmin]
    have hdiv : N / B = (N - B) / B + 1 := by
      conv_lhs => rw [hM]
      exact Nat.add_div_right _ hB
    have hmod : N % B = (N - B) % B := by
      conv_lhs => rw [hM]
      exact Nat.add_mod_right _ _
    rw [hdiv, hmod, List.replicate_succ]
    rfl
  · have hmin : min B N = N := Nat.min_eq_right (Nat.le_of_lt hlt)
    have hdiv : N / B = 0 := Nat.div_eq_of_lt hlt
    have hmod : N % B = N := Nat.mod_eq_of_lt hlt
    rw [hmin, hdiv, hmod, Nat.sub_self]
    have hne : ¬ N = 0 := by omega
    simp [hne, Nat.zero_div, Nat.zero_mod]

theorem collect_clean (fuel : Nat) :
    ∀ (s : BR) (flds : List Field) (rws : List (List ScanCell)) (d : Bool),
      s.schema = flds → s.err = none →
      s.rows = ⟨rws.map .row, none, d⟩ →
      0 < s.batchSize → flds ≠ [] →
      (∀ r ∈ rws, rowOk (tysOf flds) r = true) →
      rws.length < fuel →
      ((collect fuel s).1.map Rec.numRows =
          List.replicate (rws.length / s.batchSize) s.batchSize ++
            (if rws.length % s.batchSize = 0 then []
             else [rws.length % s.batchSize]))
      ∧ ((collect fuel s).1.map recRows).flatten
          = rws.map (convRow (tysOf flds)) := by
  induction fuel with
  | zero =>
      intro s flds rws d _ _ _ _ _ _ hlt
      exact absurd hlt (Nat.not_lt_zero _)
  | succ fuel ih =>
      intro s flds rws d hsch herr hrows hB hflds hok hlt
      cases rws with
      | nil =>
          have hf : s.rows.fetches = [] := by rw [hrows]; rfl
          have hNf := Next_empty_fetches s herr hB hf
          simp [collect, hNf, Nat.zero_div, Nat.zero_mod]
      | cons r rs =>
          set rws := r :: rs with hrws2
          have hne : rws ≠ [] := by simp [hrws2]
          have hN : 0 < rws.length := List.length_pos.mpr hne
          obtain ⟨d2, hNx⟩ := Next_clean_cons s flds rws d hsch herr hrows hB
            hne hflds hok
          set k := min s.batchSize rws.length with hk
          set bF := buildRun (newBuilder flds) (rws.take k) with hbF
          set s3 : BR :=
            { prepareNext s with
              rows := ⟨(rws.drop k).map .row, none, d2⟩,
              builder := some bF,
              record := some ⟨k, ((prepareNext s).heap.allocN flds.length).1,
                bF.map FieldBuilder.entries, s.builderGen + 1⟩,
              heap := ((prepareNext s).heap.allocN flds.length).2 } with hs3
          have hcoll : collect (fuel + 1) s =
              (⟨k, ((prepareNext s).heap.allocN flds.length).1,
                bF.map FieldBuilder.entries, s.builderGen + 1⟩ ::
                  (collect fuel s3).1, (collect fuel s3).2) := by
            simp [collect, hNx, hs3]
          have hk1 : 1 ≤ k := le_min hB hN
          have hkle : k ≤ rws.length := Nat.min_le_right _ _
          have hih := ih s3 flds (rws.drop k) d2
            (by rw [hs3]; simp [hsch])
            (by rw [hs3]; simp [herr])
            (by rw [hs3])
            (by rw [hs3]; simpa using hB)
            hflds
            (fun r2 hr2 => hok r2 (List.drop_subset _ _ hr2))
            (by
              rw [List.length_drop]
              omega)
          have hs3B : s3.batchSize = s.batchSize := by rw [hs3]; simp
          rw [hs3B] at hih
          -- row counts
          have htk : ∀ r2 ∈ rws.take k, r2.length = (newBuilder flds).length := by
            intro r2 hr2
            rw [newBuilder_length]
            have := rowOk_length (hok r2 (List.take_subset _ _ hr2))
            simpa [tysOf] using this
          have hulen : (rws.take k).length = k := by
            simp [Nat.min_eq_left hkle]
          have hu : uniformB bF k := by
            have := uniformB_buildRun (uniformB_newBuilder flds) (rws.take k) htk
            rw [hulen] at this
            simpa using this
          have hflen : flds.length ≠ 0 := fun hz => hflds (List.length_eq_zero.mp hz)
          have hblen : bF.length = flds.length := by
            rw [hbF, buildRun_length _ _ htk, newBuilder_length]
          have hbne : bF ≠ [] := by
            intro hz; rw [hz] at hblen; exact hflen hblen.symm
          have hnum : numRowsOf bF = k := numRowsOf_uniform hu hbne
          have hnbne : newBuilder flds ≠ [] := by
            intro hz
            have hl2 := newBuilder_length flds
            rw [hz] at hl2
            exact hflen hl2.symm
          have hrecRows : recRows ⟨k, ((prepareNext s).heap.allocN flds.length).1,
              bF.map FieldBuilder.entries, s.builderGen + 1⟩
                = (rws.take k).map (convRow (tysOf flds)) := by
            have h1 : (⟨k, ((prepareNext s).heap.allocN flds.length).1,
                bF.map FieldBuilder.entries, s.builderGen + 1⟩ : Rec)
              = ⟨numRowsOf bF, ((prepareNext s).heap.allocN flds.length).1,
                bF.map FieldBuilder.entries, s.builderGen + 1⟩ := by rw [hnum]
            rw [h1, recRows_ofBuilder, hbF,
              rowsOfBuilder_buildRun (uniformB_newBuilder flds) hnbne
                (rws.take k) htk,
              rowsOfBuilder_newBuilder, newBuilder_map_ty]
            simp
          constructor
          · rw [hcoll]
            simp only [List.map_cons, hih.1]
            rw [List.length_drop]
            exact (sizes_cons s.batchSize rws.length hB hN).symm
          · rw [hcoll]
            simp only [List.map_cons, List.flatten_cons, hih.2, hrecRows]
            rw [← List.map_append, List.take_append_drop]

/-! ### Heap refcount lemmas -/

theorem releaseCols_rc_not_mem :
    ∀ (cols : List Nat) (h : Heap) (c : Nat), c ∉ cols →
      (releaseCols h cols).rc c = h.rc c
  | [], _, _, _ => rfl
  | x :: xs, h, c, hc => by
      have hx : ¬ c = x := fun he => hc (he ▸ List.mem_cons_self x xs)
      have hc2 : c ∉ xs := fun hm => hc (List.mem_cons_of_mem _ hm)
      show (releaseCols (h.dec x) xs).rc c = h.rc c
      rw [releaseCols_rc_not_mem xs (h.dec x) c hc2]
      simp [Heap.dec, hx]

theorem releaseCols_rc_mem :
    ∀ (cols : List Nat) (h : Heap) (c : Nat), cols.Nodup → c ∈ cols →
      (releaseCols h cols).rc c = h.rc c - 1
  | [], _, _, _, hc => absurd hc (List.not_mem_nil _)
  | x :: xs, h, c, hnd, hc => by
      rcases List.mem_cons.mp hc with rfl | hm
      · have hnx : c ∉ xs := (List.nodup_cons.mp hnd).1
        show (releaseCols (h.dec c) xs).rc c = h.rc c - 1
        rw [releaseCols_rc_not_mem xs (h.dec c) c hnx]
        simp [Heap.dec]
      · have hx : ¬ c = x := fun he => by
          subst he
          exact (List.nodup_cons.mp hnd).1 hm
        show (releaseCols (h.dec x) xs).rc c = h.rc c - 1
        rw [releaseCols_rc_mem xs (h.dec x) c (List.nodup_cons.mp hnd).2 hm]
        simp [Heap.dec, hx]

theorem retainCols_rc_not_mem :
    ∀ (cols : List Nat) (h : Heap) (c : Nat), c ∉ cols →
      (retainCols h cols).rc c = h.rc c
  | [], _, _, _ => rfl
  | x :: xs, h, c, hc => by
      have hx : ¬ c = x := fun he => hc (he ▸ List.mem_cons_self x xs)
      have hc2 : c ∉ xs := fun hm => hc (List.mem_cons_of_mem _ hm)
      show (retainCols (h.inc x) xs).rc c = h.rc c
      rw [retainCols_rc_not_mem xs (h.inc x) c hc2]
      simp [Heap.inc, hx]

theorem retainCols_rc_mem :
    ∀ (cols : List Nat) (h : Heap) (c : Nat), cols.Nodup → c ∈ cols →
      (retainCols h cols).rc c = h.rc c + 1
  | [], _, _, _, hc => absurd hc (List.not_mem_nil _)
  | x :: xs, h, c, hnd, hc => by
      rcases List.mem_cons.mp hc with rfl | hm
      · have hnx : c ∉ xs := (List.nodup_cons.mp hnd).1
        show (retainCols (h.inc c) xs).rc c = h.rc c + 1
        rw [retainCols_rc_not_mem xs (h.inc c) c hnx]
        simp [Heap.inc]
      · have hx : ¬ c = x := fun he => by
          subst he
          exact (List.nodup_cons.mp hnd).1 hm
        show (retainCols (h.inc x) xs).rc c = h.rc c + 1
        rw [retainCols_rc_mem xs (h.inc x) c (List.nodup_cons.mp hnd).2 hm]
        simp [Heap.inc, hx]

/-! ### Builder generations across `Next` calls -/

theorem Next_true_elim {s : BR} {s2 : BR} (h : Next s = .ret true s2) :
    s.err = none ∧ nextCore (prepareNext s) = .ret true s2 := by
  unfold Next at h
  by_cases he : s.err.isSome
  · rw [if_pos he] at h
    simp at h
  · rw [if_neg he] at h
    exact ⟨Option.not_isSome_iff_eq_none.mp he, h⟩

theorem nextCore_gen {t : BR} {b : Bool} {s2 : BR}
    (h : nextCore t = .ret b s2) : s2.builderGen = t.builderGen := by
  simp only [nextCore] at h
  split at h
  · exact NextRes.noConfusion h
  · cases h
    rfl
  · split at h
    · split at h
      · cases h
        rfl
      · cases h
        rfl
    · cases h
      rfl

theorem nextCore_true_record {t : BR} {s2 : BR}
    (h : nextCore t = .ret true s2) :
    ∃ rec0 : Rec, s2.record = some rec0 ∧ rec0.gen = t.builderGen := by
  simp only [nextCore] at h
  split at h
  · exact NextRes.noConfusion h
  · simp at h
  · split at h
    · split at h
      · simp at h
      · cases h
        exact ⟨_, rfl, rfl⟩
    · simp at h

theorem Next_true_gen {s : BR} {s2 : BR} (h : Next s = .ret true s2) :
    s2.builderGen = s.builderGen + 1 ∧
      ∃ rec0 : Rec, s2.record = some rec0 ∧ rec0.gen = s.builderGen + 1 := by
  obtain ⟨herr, hc⟩ := Next_true_elim h
  have h1 := nextCore_gen hc
  have h2 := nextCore_true_record hc
  rw [prepareNext_builderGen] at h1 h2
  exact ⟨h1, h2⟩

theorem collect_gen_gt :
    ∀ (fuel : Nat) (s : BR) (g : Nat),
      g ∈ (collect fuel s).1.map Rec.gen → s.builderGen < g
  | 0, s, g, hg => absurd hg (by simp [collect])
  | fuel + 1, s, g, hg => by
      cases hx : Next s with
      | crashed m =>
        rw [show collect (fuel + 1) s = ([], s) by simp [collect, hx]] at hg
        simp at hg
      | ret b s2 =>
        cases b with
        | false =>
            rw [show collect (fuel + 1) s = ([], s2) by simp [collect, hx]] at hg
            simp at hg
        | true =>
            obtain ⟨hgen, rec0, hrec, hrecg⟩ := Next_true_gen hx
            rw [show collect (fuel + 1) s =
                (rec0 :: (collect fuel s2).1, (collect fuel s2).2) by
              simp [collect, hx, hrec]] at hg
            simp only [List.map_cons, List.mem_cons] at hg
            rcases hg with rfl | hg
            · omega
            · have := collect_gen_gt fuel s2 g hg
              omega

theorem collect_gen_sorted :
    ∀ (fuel : Nat) (s : BR),
      ((collect fuel s).1.map Rec.gen).Pairwise (· < ·)
  | 0, s => by simp [collect]
  | fuel + 1, s => by
      cases hx : Next s with
      | crashed m => simp [collect, hx]
      | ret b s2 =>
        cases b with
        | false => simp [collect, hx]
        | true =>
            obtain ⟨hgen, rec0, hrec, hrecg⟩ := Next_true_gen hx
            rw [show collect (fuel + 1) s =
                (rec0 :: (collect fuel s2).1, (collect fuel s2).2) by
              simp [collect, hx, hrec]]
            simp only [List.map_cons, List.pairwise_cons]
            refine ⟨fun g hg => ?_, collect_gen_sorted fuel s2⟩
            have := collect_gen_gt fuel s2 g hg
            omega

theorem ceil_div (B N : Nat) (hB : 0 < B) :
    N / B + (if N % B = 0 then 0 else 1) = (N + B - 1) / B := by
  have h1 : N + B - 1 = N + (B - 1) := by omega
  rw [h1, Nat.add_div hB]
  have h2 : (B - 1) % B = B - 1 := Nat.mod_eq_of_lt (by omega)
  have h3 : (B - 1) / B = 0 := Nat.div_eq_of_lt (by omega)
  rw [h2, h3]
  have h4 : N % B < B := Nat.mod_lt _ hB
  by_cases h : N % B = 0
  · rw [h]
    have hc : ¬ (B ≤ 0 + (B - 1)) := by omega
    simp [hc]
    omega
  · have hc : B ≤ N % B + (B - 1) := by omega
    simp [h, hc]

theorem recRows_take (flds : List Field) (rws : List (List ScanCell))
    (k : Nat) (hflds : flds ≠ []) (hkle : k ≤ rws.length)
    (hok : ∀ r ∈ rws, rowOk (tysOf flds) r = true)
    (cols : List Nat) (g : Nat) :
    recRows ⟨k, cols,
        (buildRun (newBuilder flds) (rws.take k)).map FieldBuilder.entries, g⟩
      = (rws.take k).map (convRow (tysOf flds)) := by
  have hflen : flds.length ≠ 0 := fun hz => hflds (List.length_eq_zero.mp hz)
  have htk : ∀ r2 ∈ rws.take k, r2.length = (newBuilder flds).length := by
    intro r2 hr2
    rw [newBuilder_length]
    have := rowOk_length (hok r2 (List.take_subset _ _ hr2))
    simpa [tysOf] using this
  have hulen : (rws.take k).length = k := by simp [Nat.min_eq_left hkle]
  have hu : uniformB (buildRun (newBuilder flds) (rws.take k)) k := by
    have := uniformB_buildRun (uniformB_newBuilder flds) (rws.take k) htk
    rw [hulen] at this
    simpa using this
  have hblen : (buildRun (newBuilder flds) (rws.take k)).length = flds.length := by
    rw [buildRun_length _ _ htk, newBuilder_length]
  have hbne : buildRun (newBuilder flds) (rws.take k) ≠ [] := by
    intro hz; rw [hz] at hblen; exact hflen hblen.symm
  have hnbne : newBuilder flds ≠ [] := by
    intro hz
    have hl2 := newBuilder_length flds
    rw [hz] at hl2
    exact hflen hl2.symm
  have hnum : numRowsOf (buildRun (newBuilder flds) (rws.take k)) = k :=
    numRowsOf_uniform hu hbne
  have h1 : (⟨k, cols,
      (buildRun (newBuilder flds) (rws.take k)).map FieldBuilder.entries, g⟩ : Rec)
    = ⟨numRowsOf (buildRun (newBuilder flds) (rws.take k)), cols,
      (buildRun (newBuilder flds) (rws.take k)).map FieldBuilder.entries, g⟩ := by
    rw [hnum]
  rw [h1, recRows_ofBuilder,
    rowsOfBuilder_buildRun (uniformB_newBuilder flds) hnbne (rws.take k) htk,
    rowsOfBuilder_newBuilder, newBuilder_map_ty]
  simp

/-! ### The claims -/

/-- C1: for a cursor that yields exactly the rows `rws` and then reports
a clean end-of-cursor, and any batch size `B > 0`, repeatedly calling
`Next` emits exactly `⌈N/B⌉` record batches whose row counts are `B`
except possibly the last, which has `N mod B` rows (or `B` when `B`
divides `N`), and the concatenation of the emitted batches' rows is the
cursor's rows in order (each cell as the value its append stores). -/
theorem c1_batch_partition (s : BR) (flds : List Field)
    (rws : List (List ScanCell)) (d : Bool) (fuel : Nat)
    (hsch : s.schema = flds) (herr : s.err = none)
    (hrows : s.rows = ⟨rws.map .row, none, d⟩)
    (hB : 0 < s.batchSize) (hflds : flds ≠ [])
    (hok : ∀ r ∈ rws, rowOk (tysOf flds) r = true)
    (hfuel : rws.length < fuel) :
    (collect fuel s).1.length = (rws.length + s.batchSize - 1) / s.batchSize
    ∧ (collect fuel s).1.map Rec.numRows =
        List.replicate (rws.length / s.batchSize) s.batchSize ++
          (if rws.length % s.batchSize = 0 then []
           else [rws.length % s.batchSize])
    ∧ ((collect fuel s).1.map recRows).flatten
        = rws.map (convRow (tysOf flds)) := by
  obtain ⟨h1, h2⟩ :=
    collect_clean fuel s flds rws d hsch herr hrows hB hflds hok hfuel
  refine ⟨?_, h1, h2⟩
  have hlen := congrArg List.length h1
  simp only [List.length_map, List.length_append, List.length_replicate] at hlen
  rw [hlen]
  have hiflen : (if rws.length % s.batchSize = 0 then ([] : List Nat)
      else [rws.length % s.batchSize]).length
      = (if rws.length % s.batchSize = 0 then 0 else 1) := by
    by_cases h : rws.length % s.batchSize = 0 <;> simp [h]
  rw [hiflen]
  exact ceil_div s.batchSize rws.length hB

/-- Witness for C1 at a concrete input: seven rows, batch size three,
yielding batches of sizes 3, 3, 1 with the rows in order. -/
theorem c1_batch_partition_witness :
    (exReader7.schema = [exField] ∧ exReader7.err = none ∧
      exReader7.rows = ⟨(exRows 7).map .row, none, false⟩ ∧
      0 < exReader7.batchSize ∧ ([exField] : List Field) ≠ [] ∧
      (∀ r ∈ exRows 7, rowOk (tysOf [exField]) r = true) ∧
      (exRows 7).length < 8)
    ∧ ((collect 8 exReader7).1.length
          = ((exRows 7).length + exReader7.batchSize - 1) / exReader7.batchSize
        ∧ (collect 8 exReader7).1.map Rec.numRows =
            List.replicate ((exRows 7).length / exReader7.batchSize)
                exReader7.batchSize ++
              (if (exRows 7).length % exReader7.batchSize = 0 then []
               else [(exRows 7).length % exReader7.batchSize])
        ∧ ((collect 8 exReader7).1.map recRows).flatten
            = (exRows 7).map (convRow (tysOf [exField]))) :=
  ⟨⟨rfl, rfl, rfl, by decide, by decide, by decide, by decide⟩,
    c1_batch_partition exReader7 [exField] (exRows 7) false 8 rfl rfl rfl
      (by decide) (by decide) (by decide) (by decide)⟩

/-- C2: `Record` returns a zero-copy slice (the very same record value,
hence the same column buffers) with every column's refcount incremented;
the returned record's columns remain readable (refcount ≥ 1) after the
next `Next` releases the internal batch and after the reader's final
`Release`, and reach refcount 0 exactly when the consumer releases the
returned record. -/
theorem c2_record_slice_lifetime (s : BR) (rec0 : Rec)
    (hrec : s.record = some rec0) (hnd : rec0.cols.Nodup)
    (hrc : ∀ c ∈ rec0.cols, s.heap.rc c = 1)
    (herr : s.err = none) (hf : s.rows.fetches = [])
    (hB : 0 < s.batchSize) (hcnt : s.refCount = 1) :
    (Record s).1 = some rec0
    ∧ (∀ c ∈ rec0.cols, (Record s).2.heap.rc c = 2)
    ∧ ∃ s2, Next (Record s).2 = .ret false s2
        ∧ s2.record = none
        ∧ (∀ c ∈ rec0.cols, s2.heap.rc c = 1)
        ∧ (Release s2).record = none
        ∧ (∀ c ∈ rec0.cols, (Release s2).heap.rc c = 1)
        ∧ (∀ c ∈ rec0.cols, (releaseCols (Release s2).heap rec0.cols).rc c = 0) := by
  have hR : Record s = (some rec0, { s with heap := retainCols s.heap rec0.cols }) := by
    simp [Record, hrec]
  set s1 : BR := { s with heap := retainCols s.heap rec0.cols } with hs1
  have hrec1 : s1.record = some rec0 := hrec
  have h1 : ∀ c ∈ rec0.cols, s1.heap.rc c = 2 := by
    intro c hc
    show (retainCols s.heap rec0.cols).rc c = 2
    rw [retainCols_rc_mem rec0.cols s.heap c hnd hc, hrc c hc]
  have hNx := Next_empty_fetches s1 herr hB hf
  set s2 : BR := { prepareNext s1 with
      rows := { s1.rows with done := true },
      builder := some (newBuilder s1.schema),
      err := s1.rows.final } with hs2
  have hrec2 : s2.record = none := by rw [hs2]; simp
  have hheap2 : s2.heap = releaseCols s1.heap rec0.cols := by
    rw [hs2]
    exact prepareNext_heap_some s1 hrec1
  have h2 : ∀ c ∈ rec0.cols, s2.heap.rc c = 1 := by
    intro c hc
    rw [hheap2, releaseCols_rc_mem rec0.cols s1.heap c hnd hc, h1 c hc]
  have hcnt2 : s2.refCount = 1 := by
    rw [hs2]
    show (prepareNext s1).refCount = 1
    rw [prepareNext_refCount]
    exact hcnt
  have hRel : Release s2 = cleanup { s2 with refCount := s2.refCount - 1 } := by
    unfold Release
    rw [hcnt2]
    simp
  have hRelRec : (Release s2).record = none := by rw [hRel]; rfl
  have hRelHeap : (Release s2).heap = s2.heap := by rw [hRel]; rfl
  refine ⟨by rw [hR], by rw [hR]; exact h1, s2, by rw [hR]; exact hNx,
    hrec2, h2, hRelRec, ?_, ?_⟩
  · intro c hc
    rw [hRelHeap]
    exact h2 c hc
  · intro c hc
    rw [hRelHeap, releaseCols_rc_mem rec0.cols s2.heap c hnd hc, h2 c hc]

/-- Witness for C2 at a concrete reader holding a one-row record over
buffer 0. -/
theorem c2_record_slice_lifetime_witness :
    (exReaderWithRecord.record = some exRec ∧ exRec.cols.Nodup ∧
      (∀ c ∈ exRec.cols, exReaderWithRecord.heap.rc c = 1) ∧
      exReaderWithRecord.err = none ∧
      exReaderWithRecord.rows.fetches = [] ∧
      0 < exReaderWithRecord.batchSize ∧ exReaderWithRecord.refCount = 1)
    ∧ ((Record exReaderWithRecord).1 = some exRec
      ∧ (∀ c ∈ exRec.cols, (Record exReaderWithRecord).2.heap.rc c = 2)
      ∧ ∃ s2, Next (Record exReaderWithRecord).2 = .ret false s2
          ∧ s2.record = none
          ∧ (∀ c ∈ exRec.cols, s2.heap.rc c = 1)
          ∧ (Release s2).record = none
          ∧ (∀ c ∈ exRec.cols, (Release s2).heap.rc c = 1)
          ∧ (∀ c ∈ exRec.cols,
              (releaseCols (Release s2).heap exRec.cols).rc c = 0)) :=
  ⟨⟨rfl, by decide, by decide, rfl, rfl, by decide, by decide⟩,
    c2_record_slice_lifetime exReaderWithRecord exRec rfl (by decide)
      (by decide) rfl rfl (by decide) (by decide)⟩

/-- C3 counterexample: a `Next` call that reads one row and then sees the
cursor's trailing iteration error finalizes and stores the one-row batch
as the current record, yet returns `false` — refuting the claim's
"…and returns true". -/
theorem c3_counterexample :
    (Next exReaderTrailingErr).retBool = some false
    ∧ ((Next exReaderTrailingErr).state.bind BR.record).map Rec.numRows = some 1
    ∧ ((Next exReaderTrailingErr).state.bind BR.err)
        = some (.new .queryFailed "connection lost") :=
  ⟨rfl, rfl, rfl⟩

/-- C3 (amended): for every `Next` call during which at least one row is
read and no cursor, scan, or append error occurs (the remaining cursor is
clean and every cell appends successfully), `Next` finalizes a record
batch containing exactly the rows read in that call, stores it as the
current record, and returns true. -/
theorem c3_amended_store_and_return_true (s : BR) (flds : List Field)
    (rws : List (List ScanCell)) (d : Bool)
    (hsch : s.schema = flds) (herr : s.err = none)
    (hrows : s.rows = ⟨rws.map .row, none, d⟩)
    (hB : 0 < s.batchSize) (hne : rws ≠ []) (hflds : flds ≠ [])
    (hok : ∀ r ∈ rws, rowOk (tysOf flds) r = true) :
    ∃ s2 rec0, Next s = .ret true s2 ∧ s2.record = some rec0
      ∧ rec0.numRows = min s.batchSize rws.length
      ∧ recRows rec0 =
          (rws.take (min s.batchSize rws.length)).map (convRow (tysOf flds)) := by
  obtain ⟨d2, hNx⟩ := Next_clean_cons s flds rws d hsch herr hrows hB hne hflds hok
  refine ⟨_, _, hNx, rfl, rfl, ?_⟩
  exact recRows_take flds rws (min s.batchSize rws.length) hflds
    (Nat.min_le_right _ _) hok _ _

/-- Witness for the amended C3 at the seven-row reader: the first call
returns true with the first three rows stored. -/
theorem c3_amended_witness :
    (exReader7.schema = [exField] ∧ exReader7.err = none ∧
      exReader7.rows = ⟨(exRows 7).map .row, none, false⟩ ∧
      0 < exReader7.batchSize ∧ exRows 7 ≠ [] ∧
      ([exField] : List Field) ≠ [] ∧
      (∀ r ∈ exRows 7, rowOk (tysOf [exField]) r = true))
    ∧ (∃ s2 rec0, Next exReader7 = .ret true s2 ∧ s2.record = some rec0
        ∧ rec0.numRows = min exReader7.batchSize (exRows 7).length
        ∧ recRows rec0 =
            ((exRows 7).take (min exReader7.batchSize (exRows 7).length)).map
              (convRow (tysOf [exField]))) :=
  ⟨⟨rfl, rfl, rfl, by decide, by decide, by decide, by decide⟩,
    c3_amended_store_and_return_true exReader7 [exField] (exRows 7) false
      rfl rfl rfl (by decide) (by decide) (by decide) (by decide)⟩

/-- C4: when the cursor yields zero rows on the very first fetch of a
call, `Next` sets the reader's error from the cursor's trailing error
(absent on a clean end-of-cursor), returns false, and produces no record
batch. -/
theorem c4_zero_rows_first_fetch (s : BR) (herr : s.err = none)
    (hB : 0 < s.batchSize) (hf : s.rows.fetches = []) :
    ∃ s2, Next s = .ret false s2 ∧ s2.err = s.rows.final
      ∧ s2.record = none := by
  refine ⟨_, Next_empty_fetches s herr hB hf, rfl, ?_⟩
  simp

/-- Witness for C4 at a reader whose empty cursor carries a trailing
error. -/
theorem c4_zero_rows_witness :
    (exReaderEmptyErr.err = none ∧ 0 < exReaderEmptyErr.batchSize ∧
      exReaderEmptyErr.rows.fetches = [])
    ∧ (∃ s2, Next exReaderEmptyErr = .ret false s2
        ∧ s2.err = exReaderEmptyErr.rows.final ∧ s2.record = none) :=
  ⟨⟨rfl, by decide, rfl⟩,
    c4_zero_rows_first_fetch exReaderEmptyErr rfl (by decide) rfl⟩

/-- C5 (code bug): the spec requires that a STRING value scanned through
a dynamic slot into an INT64 column's builder make `Next` return false
with an Internal "unexpected builder type" error; the code instead
performs an unchecked `*array.StringBuilder` type assertion, so the
dynamic append panics and the whole `Next` call crashes rather than
returning false with an error. -/
theorem c5_dynamic_mismatch_panics :
    appendDynamicValue ⟨.int64, []⟩ (some (.str "x"))
        = .goPanic "interface conversion: array.Builder has unexpected dynamic type"
    ∧ (Next exReaderDynMismatch).crashMsg
        = some "interface conversion: array.Builder has unexpected dynamic type"
    ∧ (Next exReaderDynMismatch).retBool = none :=
  ⟨rfl, rfl, rfl⟩

/-- C6 (code bug): the scan destination for a nullable UINT16/32/64
column is indeed the pointer-carrying slot `new(*uintN)` of dynamic type
`**uintN`, but `appendValue`'s type switch has no case for `**uintN`:
both an absent and a present value fall through to the default arm and
fail with Internal "unsupported scan type", instead of appending
null / the value as the claim states. -/
theorem c6_nullable_unsigned_append_fails (nm : String)
    (es : List (Option AVal)) (v : Nat) :
    createScanDest ⟨nm, .uint16, true⟩ = .ptrPtrUint16
    ∧ createScanDest ⟨nm, .uint32, true⟩ = .ptrPtrUint32
    ∧ createScanDest ⟨nm, .uint64, true⟩ = .ptrPtrUint64
    ∧ appendValue ⟨.uint16, es⟩ (.ptrPtrUint16 (some v))
        = .err (.new .internal "unsupported scan type: **uint16")
    ∧ appendValue ⟨.uint16, es⟩ (.ptrPtrUint16 none)
        = .err (.new .internal "unsupported scan type: **uint16")
    ∧ appendValue ⟨.uint32, es⟩ (.ptrPtrUint32 (some v))
        = .err (.new .internal "unsupported scan type: **uint32")
    ∧ appendValue ⟨.uint64, es⟩ (.ptrPtrUint64 (some v))
        = .err (.new .internal "unsupported scan type: **uint64") :=
  ⟨rfl, rfl, rfl, rfl, rfl, rfl, rfl⟩

/-- C7 (code bug): a nullable INT8 column scans through `sql.NullByte`;
appending a null works, but appending a valid value asserts
`*array.Uint8Builder` and panics on the column's `Int8Builder`, instead
of storing the value through the signed 8-bit builder as the claim
states. -/
theorem c7_nullable_int8_append_crashes (nm : String)
    (es : List (Option AVal)) (v : Nat) :
    createScanDest ⟨nm, .int8, true⟩ = .nullByte
    ∧ appendValue ⟨.int8, es⟩ (.nullByte true v)
        = .goPanic "interface conversion: array.Builder has unexpected dynamic type"
    ∧ appendValue ⟨.int8, es⟩ (.nullByte false v) = .ok ⟨.int8, es ++ [none]⟩ :=
  ⟨rfl, rfl, rfl⟩

/-- C8 (amended): the temporal appends store, for DATE32, the Unix
seconds divided by 86400 with Go's truncation toward zero (equal to the
number of days since the Unix epoch exactly when the instant is at or
after the epoch); for DATE64, milliseconds since the epoch; for TIME32,
seconds since midnight; for TIME64, microseconds since midnight; for
TIMESTAMP, microseconds since the epoch. -/
theorem c8_temporal_units (t : GoTime) (es : List (Option AVal))
    (hns : t.nanosecond < 1000000000) (hh : t.hour ≤ 23)
    (hm : t.minute ≤ 59) (hs : t.second ≤ 59) :
    appendTimeValue ⟨.date32, es⟩ t
        = .ok ⟨.date32, es ++ [some (.date32 (wrap32 (Int.tdiv t.unixSec 86400)))]⟩
    ∧ (0 ≤ t.unixSec → t.unixSec < 86400 * 2 ^ 31 →
        wrap32 (Int.tdiv t.unixSec 86400) = specDaysSinceEpoch t)
    ∧ appendTimeValue ⟨.date64, es⟩ t
        = .ok ⟨.date64, es ++ [some (.date64 (specMillisSinceEpoch t))]⟩
    ∧ appendTimeValue ⟨.time32, es⟩ t
        = .ok ⟨.time32, es ++ [some (.time32 (specSecondsSinceMidnight t))]⟩
    ∧ appendTimeValue ⟨.time64, es⟩ t
        = .ok ⟨.time64, es ++ [some (.time64 (specMicrosSinceMidnight t))]⟩
    ∧ appendTimeValue ⟨.timestamp, es⟩ t
        = .ok ⟨.timestamp, es ++ [some (.timestamp (specMicrosSinceEpoch t))]⟩ := by
  refine ⟨rfl, ?_, ?_, ?_, ?_, ?_⟩
  · intro h1 h2
    have e1 : Int.tdiv t.unixSec 86400 = t.unixSec / 86400 :=
      Int.tdiv_eq_ediv h1 (by norm_num)
    have e2 : specDaysSinceEpoch t = t.unixSec / 86400 :=
      Int.fdiv_eq_ediv _ (by norm_num)
    rw [e1, e2]
    unfold wrap32
    omega
  · have hv : specMillisSinceEpoch t = t.unixMilli := by
      unfold specMillisSinceEpoch GoTime.unixMilli
      rw [Int.fdiv_eq_ediv _ (by norm_num)]
      omega
    rw [hv]
    rfl
  · have hv : specSecondsSinceMidnight t
        = wrap32 ((t.hour * 3600 + t.minute * 60 + t.second : Nat) : Int) := by
      unfold specSecondsSinceMidnight wrap32
      omega
    rw [hv]
    rfl
  · have hv : specMicrosSinceMidnight t
        = (t.hour : Int) * 3600000000 + (t.minute : Int) * 60000000 +
            (t.second : Int) * 1000000 + ((t.nanosecond / 1000 : Nat) : Int) := by
      unfold specMicrosSinceMidnight specSecondsSinceMidnight
      rw [Int.fdiv_eq_ediv _ (by norm_num)]
      omega
    rw [hv]
    rfl
  · have hv : specMicrosSinceEpoch t = t.unixMicro := by
      unfold specMicrosSinceEpoch GoTime.unixMicro
      rw [Int.fdiv_eq_ediv _ (by norm_num)]
      omega
    rw [hv]
    rfl

/-- Witness for the amended C8 at noon UTC on 2000-01-01
(Unix 946728000 = 10957 days + 12 h, nanosecond 500000). -/
theorem c8_temporal_units_witness :
    (((⟨946728000, 500000, 12, 0, 0⟩ : GoTime).nanosecond < 1000000000) ∧
      (⟨946728000, 500000, 12, 0, 0⟩ : GoTime).hour ≤ 23 ∧
      (⟨946728000, 500000, 12, 0, 0⟩ : GoTime).minute ≤ 59 ∧
      (⟨946728000, 500000, 12, 0, 0⟩ : GoTime).second ≤ 59)
    ∧ (appendTimeValue ⟨.date32, []⟩ ⟨946728000, 500000, 12, 0, 0⟩
        = .ok ⟨.date32, [some (.date32 (wrap32 (Int.tdiv 946728000 86400)))]⟩
      ∧ (0 ≤ (946728000 : Int) → (946728000 : Int) < 86400 * 2 ^ 31 →
          wrap32 (Int.tdiv 946728000 86400)
            = specDaysSinceEpoch ⟨946728000, 500000, 12, 0, 0⟩)
      ∧ appendTimeValue ⟨.date64, []⟩ ⟨946728000, 500000, 12, 0, 0⟩
          = .ok ⟨.date64, [some (.date64
              (specMillisSinceEpoch ⟨946728000, 500000, 12, 0, 0⟩))]⟩
      ∧ appendTimeValue ⟨.time32, []⟩ ⟨946728000, 500000, 12, 0, 0⟩
          = .ok ⟨.time32, [some (.time32
              (specSecondsSinceMidnight ⟨946728000, 500000, 12, 0, 0⟩))]⟩
      ∧ appendTimeValue ⟨.time64, []⟩ ⟨946728000, 500000, 12, 0, 0⟩
          = .ok ⟨.time64, [some (.time64
              (specMicrosSinceMidnight ⟨946728000, 500000, 12, 0, 0⟩))]⟩
      ∧ appendTimeValue ⟨.timestamp, []⟩ ⟨946728000, 500000, 12, 0, 0⟩
          = .ok ⟨.timestamp, [some (.timestamp
              (specMicrosSinceEpoch ⟨946728000, 500000, 12, 0, 0⟩))]⟩) :=
  ⟨⟨by decide, by decide, by decide, by decide⟩,
    c8_temporal_units ⟨946728000, 500000, 12, 0, 0⟩ [] (by decide)
      (by decide) (by decide) (by decide)⟩

/-- C8 counterexample: at the pre-epoch instant 1969-12-31T12:00:00Z the
code stores Date32 value 0 (truncating division), while the number of
days since the Unix epoch is −1 — the claim as stated fails for
pre-epoch instants. -/
theorem c8_counterexample :
    appendTimeValue ⟨.date32, []⟩ exPreEpoch = .ok ⟨.date32, [some (.date32 0)]⟩
    ∧ specDaysSinceEpoch exPreEpoch = -1
    ∧ ¬ (appendTimeValue ⟨.date32, []⟩ exPreEpoch
          = .ok ⟨.date32, [some (.date32 (specDaysSinceEpoch exPreEpoch))]⟩) := by
  refine ⟨by decide, by decide, by decide⟩

/-- C9: a `Next` call that proceeds past the sticky-error check first
releases the prior emitted batch (each column refcount decremented) and
nulls its slot, releases the previous builder set, and allocates a fresh
builder set bound to the reader's schema under a new generation; emitted
batches of successive calls carry strictly increasing generations, so no
builder set is reused across two emitted batches. -/
theorem c9_fresh_builders_per_batch (s : BR) (herr : s.err = none) :
    (prepareNext s).record = none
    ∧ (prepareNext s).builder = some (newBuilder s.schema)
    ∧ (prepareNext s).builderGen = s.builderGen + 1
    ∧ (s.builder.isSome →
        (prepareNext s).buildersReleased = s.buildersReleased + 1)
    ∧ (∀ rec0, s.record = some rec0 → rec0.cols.Nodup →
        ∀ c ∈ rec0.cols, (prepareNext s).heap.rc c = s.heap.rc c - 1)
    ∧ Next s = nextCore (prepareNext s)
    ∧ (∀ fuel, ((collect fuel s).1.map Rec.gen).Pairwise (· < ·)) := by
  refine ⟨prepareNext_record s, prepareNext_builder s, prepareNext_builderGen s,
    prepareNext_buildersReleased_some s, ?_, ?_, fun fuel => collect_gen_sorted fuel s⟩
  · intro rec0 hrec hnd c hc
    rw [prepareNext_heap_some s hrec]
    exact releaseCols_rc_mem rec0.cols s.heap c hnd hc
  · have : ¬ s.err.isSome := by simp [herr]
    simp [Next, this]

/-- Witness for C9 at a reader holding a record, with a live builder. -/
theorem c9_fresh_builders_witness :
    exReaderWithRecord.err = none
    ∧ ((prepareNext exReaderWithRecord).record = none
      ∧ (prepareNext exReaderWithRecord).builder
          = some (newBuilder exReaderWithRecord.schema)
      ∧ (prepareNext exReaderWithRecord).builderGen
          = exReaderWithRecord.builderGen + 1
      ∧ (exReaderWithRecord.builder.isSome →
          (prepareNext exReaderWithRecord).buildersReleased
            = exReaderWithRecord.buildersReleased + 1)
      ∧ (∀ rec0, exReaderWithRecord.record = some rec0 → rec0.cols.Nodup →
          ∀ c ∈ rec0.cols, (prepareNext exReaderWithRecord).heap.rc c
            = exReaderWithRecord.heap.rc c - 1)
      ∧ Next exReaderWithRecord = nextCore (prepareNext exReaderWithRecord)
      ∧ (∀ fuel, ((collect fuel exReaderWithRecord).1.map Rec.gen).Pairwise (· < ·))) :=
  ⟨rfl, c9_fresh_builders_per_batch exReaderWithRecord rfl⟩

/-- C10: the error state is sticky — once `Err` is non-nil, `Next`
returns false immediately with the reader state (cursor, current batch,
builders, error) completely unchanged. -/
theorem c10_sticky_error (s : BR) (e : GoError) (herr : s.err = some e) :
    Next s = .ret false s := by
  have h : s.err.isSome := by simp [herr]
  simp [Next, h]

/-- Witness for C10 at a reader already in the error state with pending
cursor rows. -/
theorem c10_sticky_error_witness :
    exReaderSticky.err = some (.new .internal "earlier failure")
    ∧ Next exReaderSticky = .ret false exReaderSticky :=
  ⟨rfl, c10_sticky_error exReaderSticky (.new .internal "earlier failure") rfl⟩

end Porter
